import Mathlib

/-!
Verification of the window-management state machine of dwm-vain
(`config.def.h`, which carries the configuration tables followed by the
full program source).  The C code is shallowly embedded: machine
integers become `Nat`/`Int` (with an explicit `% 2^32` wherever the C
code performs unsigned arithmetic that can wrap), C floats become exact
rationals, linked lists become `List`s, and every X11 side effect
(drawing, property writes, event emission) is dropped, keeping only the
mutations of the window-manager data model.
-/

set_option maxHeartbeats 1000000

namespace DwmVain

/-! ### Configuration constants (config section of config.def.h)

`tags` has 9 entries, so `LENGTH(tags) = 9` and
`#define TAGMASK ((1 << LENGTH(tags)) - 1)`. -/

/-- `TAGMASK` — the bitmask of all 9 configured tags. -/
def TAGMASK : Nat := (1 <<< 9) - 1

/-- `static const unsigned int startuptags = 1;` -/
def startuptags : Nat := 1

theorem TAGMASK_eq : TAGMASK = 511 := rfl

/-! ### Monitor tag-set model

A monitor's tag-set state: the two `tagset` slots and `seltags`.
`calloc` zero-initialises `seltags`; the only mutation is `seltags ^= 1`,
so it stays in `{0, 1}`. -/

structure Mon where
  tagset0 : Nat
  tagset1 : Nat
  seltags : Nat
deriving DecidableEq, Repr

/-- `m->tagset[m->seltags]` — the active tag-set slot. -/
def Mon.cur (m : Mon) : Nat :=
  if m.seltags = 0 then m.tagset0 else m.tagset1

/-- `m->tagset[m->seltags ^ 1]` — the inactive tag-set slot. -/
def Mon.alt (m : Mon) : Nat :=
  if m.seltags = 0 then m.tagset1 else m.tagset0

/-- `m->tagset[m->seltags] = v` — write the active slot. -/
def Mon.setCur (m : Mon) (v : Nat) : Mon :=
  if m.seltags = 0 then { m with tagset0 := v } else { m with tagset1 := v }

/-- `createmon()` — the tag-set fields of a freshly allocated monitor:
`m->tagset[0] = m->tagset[1] = startuptags;` and `seltags = 0` from
`calloc`. -/
def createmon : Mon :=
  { tagset0 := startuptags, tagset1 := startuptags, seltags := 0 }

/-- `view(arg)` restricted to the tag-set fields it mutates:

    if((arg->ui & TAGMASK) == selmon->tagset[selmon->seltags]) return;
    selmon->seltags ^= 1;
    if(arg->ui & TAGMASK) selmon->tagset[selmon->seltags] = arg->ui & TAGMASK;

(`focus(NULL)` and `arrange` do not touch tag-sets). -/
def Mon.view (m : Mon) (ui : Nat) : Mon :=
  if ui &&& TAGMASK = m.cur then m
  else
    let m' := { m with seltags := m.seltags ^^^ 1 }
    if ui &&& TAGMASK ≠ 0 then m'.setCur (ui &&& TAGMASK) else m'

/-- `toggleview(arg)` restricted to the tag-set fields:

    unsigned int newtagset = selmon->tagset[selmon->seltags] ^ (arg->ui & TAGMASK);
    if(newtagset) selmon->tagset[selmon->seltags] = newtagset;
-/
def Mon.toggleview (m : Mon) (ui : Nat) : Mon :=
  let newtagset := m.cur ^^^ (ui &&& TAGMASK)
  if newtagset ≠ 0 then m.setCur newtagset else m

/-- The `_NET_ACTIVE_WINDOW` branch of `clientmessage` restricted to the
tag-set fields, for a managed client with tag mask `ctags`:

    if(!ISVISIBLE(c)) {
      c->mon->seltags ^= 1;
      c->mon->tagset[c->mon->seltags] = c->tags;
    }
-/
def Mon.netActiveSwap (m : Mon) (ctags : Nat) : Mon :=
  if ctags &&& m.cur = 0 then
    ({ m with seltags := m.seltags ^^^ 1 } : Mon).setCur ctags
  else m

/-! Basic facts about the slot combinators. -/

theorem Mon.cur_setCur (m : Mon) (v : Nat) : (m.setCur v).cur = v := by
  unfold Mon.setCur Mon.cur
  by_cases h : m.seltags = 0 <;> simp [h]

theorem Mon.alt_setCur (m : Mon) (v : Nat) : (m.setCur v).alt = m.alt := by
  unfold Mon.setCur Mon.alt
  by_cases h : m.seltags = 0 <;> simp [h]

theorem Mon.seltags_setCur (m : Mon) (v : Nat) : (m.setCur v).seltags = m.seltags := by
  unfold Mon.setCur
  by_cases h : m.seltags = 0 <;> simp [h]

theorem Mon.cur_flip (m : Mon) (h2 : m.seltags < 2) :
    ({ m with seltags := m.seltags ^^^ 1 } : Mon).cur = m.alt := by
  interval_cases h : m.seltags <;> simp [Mon.cur, Mon.alt, h]

theorem Mon.alt_flip (m : Mon) (h2 : m.seltags < 2) :
    ({ m with seltags := m.seltags ^^^ 1 } : Mon).alt = m.cur := by
  interval_cases h : m.seltags <;> simp [Mon.cur, Mon.alt, h]

theorem Mon.seltags_flip_lt (m : Mon) (h2 : m.seltags < 2) :
    ({ m with seltags := m.seltags ^^^ 1 } : Mon).seltags < 2 := by
  interval_cases h : m.seltags <;> simp



/-! ### Claim C3 — the two-slot view history

The spec asserts that after `view(x)` followed by `view(y)`, where `y`
was the tag-set active before `view(x)`, the active tag-set equals `x`.
On the code, `view(y)` makes `y` active again (the pair of calls returns
to the starting view); `x & TAGMASK` is retained in the alternate slot,
so that one further toggle re-activates it. -/

/-- Claim C3 (counterexample): on the monitor state `⟨1, 2, 0⟩` (active
slot 1), with `x = 4` and `y = 1` (the previously active tag-set,
`x & TAGMASK` nonzero), `view(4)` followed by `view(1)` leaves the
active tag-set at `1`, not at `x = 4` as the claim states. -/
theorem C3_view_counterexample :
    (4 &&& TAGMASK ≠ 0) ∧ (1 = (Mon.mk 1 2 0).cur) ∧
    ((Mon.mk 1 2 0).view 4 |>.view 1 |>.cur) = 1 ∧
    ¬ ((Mon.mk 1 2 0).view 4 |>.view 1 |>.cur) = 4 := by
  decide

theorem Mon.view_noop (m : Mon) (ui : Nat) (h : ui &&& TAGMASK = m.cur) :
    m.view ui = m := by
  unfold Mon.view
  simp [h]

theorem Mon.view_switch (m : Mon) (ui : Nat) (h1 : ui &&& TAGMASK ≠ m.cur)
    (h2 : ui &&& TAGMASK ≠ 0) :
    m.view ui = ({ m with seltags := m.seltags ^^^ 1 } : Mon).setCur (ui &&& TAGMASK) := by
  unfold Mon.view
  simp [h1, h2]

theorem Mon.view_toggle (m : Mon) (ui : Nat) (h1 : ui &&& TAGMASK ≠ m.cur)
    (h2 : ui &&& TAGMASK = 0) :
    m.view ui = { m with seltags := m.seltags ^^^ 1 } := by
  have h1' : (0 : Nat) ≠ m.cur := h2 ▸ h1
  unfold Mon.view
  simp [h2, h1']

/-- Claim C3 (amended): for every monitor state `m` with `seltags ∈ {0,1}`
and every mask `x` with `x & TAGMASK ≠ 0`, if `y` is the tag-set active
before `view(x)` (nonzero and within `TAGMASK`, as the §3 invariants
guarantee), then after `view(x)` followed by `view(y)` the active
tag-set equals `y` — the pair of calls returns to the starting view —
and, whenever `view(x)` actually switched (`x & TAGMASK ≠ y`), the
alternate slot retains `x & TAGMASK` and one further toggle
(`view(0)`, the "toggle to last view" binding) re-activates
`x & TAGMASK`. -/
theorem C3_view_pair (m : Mon) (x y : Nat)
    (hs : m.seltags < 2) (hx : x &&& TAGMASK ≠ 0)
    (hy : y = m.cur) (hy0 : y ≠ 0) (hyM : y &&& TAGMASK = y) :
    ((m.view x).view y).cur = y ∧
    (x &&& TAGMASK ≠ y →
      ((m.view x).view y).alt = x &&& TAGMASK ∧
      (((m.view x).view y).view 0).cur = x &&& TAGMASK) := by
  subst hy
  by_cases hxc : x &&& TAGMASK = m.cur
  · -- view(x) is a no-op, and so is view(m.cur)
    rw [Mon.view_noop m x hxc, Mon.view_noop m m.cur (by rw [hyM])]
    exact ⟨rfl, fun hne => absurd hxc hne⟩
  · -- view(x) flips the history and writes x & TAGMASK
    have h1 := Mon.view_switch m x hxc hx
    have hcur1 : (m.view x).cur = x &&& TAGMASK := by
      rw [h1, Mon.cur_setCur]
    have halt1 : (m.view x).alt = m.cur := by
      rw [h1, Mon.alt_setCur, Mon.alt_flip m hs]
    have hs1 : (m.view x).seltags < 2 := by
      rw [h1, Mon.seltags_setCur]
      exact Mon.seltags_flip_lt m hs
    -- view(m.cur) flips back and rewrites the slot that already held m.cur
    have hne : m.cur &&& TAGMASK ≠ (m.view x).cur := by
      rw [hcur1, hyM]
      exact fun h => hxc h.symm
    have h2 := Mon.view_switch (m.view x) m.cur hne (by rw [hyM]; exact hy0)
    have hcur2 : ((m.view x).view m.cur).cur = m.cur := by
      rw [h2, Mon.cur_setCur, hyM]
    have halt2 : ((m.view x).view m.cur).alt = x &&& TAGMASK := by
      rw [h2, Mon.alt_setCur, Mon.alt_flip _ hs1, hcur1]
    have hs2 : ((m.view x).view m.cur).seltags < 2 := by
      rw [h2, Mon.seltags_setCur]
      exact Mon.seltags_flip_lt _ hs1
    refine ⟨hcur2, fun _ => ⟨halt2, ?_⟩⟩
    -- view(0): flips the history without writing, re-activating x & TAGMASK
    have hne0 : (0 : Nat) &&& TAGMASK ≠ ((m.view x).view m.cur).cur := by
      rw [hcur2]
      simpa using fun h => hy0 h.symm
    rw [Mon.view_toggle _ 0 hne0 (by decide), Mon.cur_flip _ hs2, halt2]

/-- Claim C3 (witness): the amended theorem applied at the concrete
monitor state `⟨1, 2, 0⟩`, `x = 4`, `y = 1`. -/
theorem C3_view_pair_witness :
    (((Mon.mk 1 2 0).view 4).view 1).cur = 1 ∧
    (4 &&& TAGMASK ≠ 1 →
      (((Mon.mk 1 2 0).view 4).view 1).alt = 4 &&& TAGMASK ∧
      ((((Mon.mk 1 2 0).view 4).view 1).view 0).cur = 4 &&& TAGMASK) :=
  C3_view_pair (Mon.mk 1 2 0) 4 1 (by decide) (by decide) (by decide)
    (by decide) (by decide)


/-! ### Claim C8 — command-line handling of main()

    int main(int argc, char *argv[]) {
      if(argc == 2 && !strcmp("-v", argv[1]))
        die("dwm-"VERSION",  2006-"YEAR" dwm engineers, see LICENSE for details\n");
      else if(argc != 1)
        die("usage: dwm [-v]\n");
      ...
    }

`die` prints its message to stderr and calls `exit(EXIT_FAILURE)`, so
**both** branches terminate with status 1. -/

/-- The outcome of the argument check at the top of `main`: either the
process exits with a message and a status, or it proceeds to open the
display and run. -/
inductive CliOutcome where
  | exited (msg : String) (status : Nat)
  | proceed
deriving DecidableEq, Repr

/-- `EXIT_FAILURE` on the target platform. -/
def EXIT_FAILURE : Nat := 1

/-- `die(errstr, ...)`: prints the message to stderr and calls
`exit(EXIT_FAILURE)` — unconditionally status 1. -/
def die (msg : String) : CliOutcome :=
  CliOutcome.exited msg EXIT_FAILURE

/-- The version banner passed to `die` for `-v`; `VERSION` and `YEAR`
are substituted by the Makefile (`6.1+` / `2012+` outside a git
checkout). -/
def versionMsg : String :=
  "dwm-6.1+,  2006-2012+ dwm engineers, see LICENSE for details\n"

/-- The argument dispatch of `main`.  `argv` is the argument list
without the program name, so `argc == 2 && !strcmp("-v", argv[1])`
is `argv = ["-v"]` and `argc != 1` is `argv ≠ []`. -/
def mainArgs (argv : List String) : CliOutcome :=
  if argv = ["-v"] then die versionMsg
  else if argv ≠ [] then die "usage: dwm [-v]\n"
  else CliOutcome.proceed

/-- Claim C8 (counterexample): invoked with the single argument `-v`
the program does print its version banner, but it terminates through
`die`, whose exit status is `EXIT_FAILURE = 1`, not 0 as claimed. -/
theorem C8_version_exit_counterexample :
    mainArgs ["-v"] = CliOutcome.exited versionMsg 1 ∧
    mainArgs ["-v"] ≠ CliOutcome.exited versionMsg 0 := by
  constructor <;> decide

/-- Claim C8 (amended): invoked with the single argument `-v`, the
program prints its version banner and terminates with exit status 1
(`die` always exits with `EXIT_FAILURE`); invoked with any other
non-empty argument list it prints the usage message and terminates
with exit status 1; with no arguments it proceeds. -/
theorem C8_main_args (argv : List String) :
    (argv = ["-v"] → mainArgs argv = CliOutcome.exited versionMsg 1) ∧
    (argv ≠ ["-v"] → argv ≠ [] →
      mainArgs argv = CliOutcome.exited "usage: dwm [-v]\n" 1) ∧
    (argv = [] → mainArgs argv = CliOutcome.proceed) := by
  refine ⟨fun h => by simp [mainArgs, die, EXIT_FAILURE, h],
          fun h1 h2 => by simp [mainArgs, die, EXIT_FAILURE, h1, h2],
          fun h => by simp [mainArgs, h]⟩

/-- Claim C8 (witness): the amended theorem applied at `["-x"]`. -/
theorem C8_main_args_witness :
    mainArgs ["-x"] = CliOutcome.exited "usage: dwm [-v]\n" 1 :=
  (C8_main_args ["-x"]).2.1 (by decide) (by decide)

/-! ### Claim C10 — transient windows in manage()

    if(XGetTransientForHint(dpy, w, &trans) && (t = wintoclient(trans))) {
      c->mon = t->mon;
      c->tags = t->tags;
    }
    else {
      c->mon = selmon;
      applyrules(c);
    }
-/

/-- A managed client, projected onto the fields the tagging claims are
about: its tag bitmask and the index of its monitor in the monitor
list. -/
structure Cli where
  tags : Nat
  mon : Nat
deriving DecidableEq, Repr

/-- The tag computation of `applyrules(c)`: `c->tags` starts at 0, each
matching rule contributes `c->tags |= r->tags`, and finally

    c->tags = c->tags & TAGMASK ? c->tags & TAGMASK
                                : c->mon->tagset[c->mon->seltags];

`matched` lists the `r->tags` masks of the rules whose
class/instance/title substring tests succeeded (the `strstr` matching
itself happens against X properties and is kept abstract); `mon` is
the monitor the client ends on. -/
def applyrulesTags (matched : List Nat) (mon : Mon) : Nat :=
  let acc := matched.foldl (fun t rt => t ||| rt) 0
  if acc &&& TAGMASK ≠ 0 then acc &&& TAGMASK else mon.cur

/-- The monitor/tags assignment of `manage(w, wa)`: `transClient` is
`some t` when the `WM_TRANSIENT_FOR` hint resolves via `wintoclient`
to a managed client `t`; otherwise the client goes to `selmon`
(index `selmonIdx`, whose monitor record is `selmonMon`) and
`applyrules` runs over the rule table. -/
def manageAssign (transClient : Option Cli) (selmonIdx : Nat) (selmonMon : Mon)
    (matched : List Nat) : Cli :=
  match transClient with
  | some t => { tags := t.tags, mon := t.mon }
  | none => { tags := applyrulesTags matched selmonMon, mon := selmonIdx }

/-- Claim C10: when `manage` finds a `WM_TRANSIENT_FOR` hint naming a
window that is itself a managed client `t`, the new client is placed on
`t`'s monitor with tags exactly `t`'s tags, and this holds for **every**
rule table and every selected monitor — `applyrules` is not
consulted. -/
theorem C10_manage_transient (t : Cli) (selmonIdx : Nat) (selmonMon : Mon)
    (matched : List Nat) :
    manageAssign (some t) selmonIdx selmonMon matched
      = { tags := t.tags, mon := t.mon } := rfl

/-! ### Claim C5 — fullscreen round-trip

`setfullscreen` and `resizeclient`, projected onto the client record
(the `_NET_WM_STATE` property writes, `XRaiseWindow`, the
`XConfigureWindow`/`configure`/`XSync` calls of `resizeclient`, and the
final `arrange(c->mon)` relayout are X-side effects outside the client
record). -/

/-- The geometry/flag fields of `struct Client` that `setfullscreen`
and `resizeclient` touch. -/
structure FsClient where
  x : Int
  y : Int
  w : Int
  h : Int
  oldx : Int
  oldy : Int
  oldw : Int
  oldh : Int
  bw : Int
  oldbw : Int
  isfloating : Bool
  oldstate : Bool
  isfullscreen : Bool
deriving DecidableEq, Repr

/-- The monitor screen rectangle `(mx, my, mw, mh)`. -/
structure MonRect where
  mx : Int
  my : Int
  mw : Int
  mh : Int
deriving DecidableEq, Repr

/-- `resizeclient(c, x, y, w, h)`:

    c->oldx = c->x; c->x = wc.x = x;
    c->oldy = c->y; c->y = wc.y = y;
    c->oldw = c->w; c->w = wc.width = w;
    c->oldh = c->h; c->h = wc.height = h;
-/
def resizeclient (c : FsClient) (x y w h : Int) : FsClient :=
  { c with oldx := c.x, x := x, oldy := c.y, y := y,
           oldw := c.w, w := w, oldh := c.h, h := h }

/-- `setfullscreen(c, fullscreen)` (client-record effect). Entering:
save floating state and border width, force a zero border and floating,
resize to the full monitor rectangle.  Leaving: restore the saved
flags/border and the saved geometry, then `resizeclient` to it. -/
def setfullscreen (c : FsClient) (m : MonRect) (fullscreen : Bool) : FsClient :=
  if fullscreen then
    let c' := { c with isfullscreen := true, oldstate := c.isfloating,
                       oldbw := c.bw, bw := 0, isfloating := true }
    resizeclient c' m.mx m.my m.mw m.mh
  else
    let c' := { c with isfullscreen := false, isfloating := c.oldstate,
                       bw := c.oldbw, x := c.oldx, y := c.oldy,
                       w := c.oldw, h := c.oldh }
    resizeclient c' c'.x c'.y c'.w c'.h

/-- Claim C5: for every non-fullscreen client, entering fullscreen sets
`isfullscreen`, a zero border, the floating flag and the full monitor
rectangle as geometry; leaving fullscreen again restores exactly the
previous geometry, border width and floating flag. -/
theorem C5_fullscreen_roundtrip (c : FsClient) (m : MonRect)
    (_h : c.isfullscreen = false) :
    (setfullscreen c m true).isfullscreen = true ∧
    (setfullscreen c m true).bw = 0 ∧
    (setfullscreen c m true).isfloating = true ∧
    (setfullscreen c m true).x = m.mx ∧
    (setfullscreen c m true).y = m.my ∧
    (setfullscreen c m true).w = m.mw ∧
    (setfullscreen c m true).h = m.mh ∧
    (setfullscreen (setfullscreen c m true) m false).x = c.x ∧
    (setfullscreen (setfullscreen c m true) m false).y = c.y ∧
    (setfullscreen (setfullscreen c m true) m false).w = c.w ∧
    (setfullscreen (setfullscreen c m true) m false).h = c.h ∧
    (setfullscreen (setfullscreen c m true) m false).bw = c.bw ∧
    (setfullscreen (setfullscreen c m true) m false).isfloating = c.isfloating ∧
    (setfullscreen (setfullscreen c m true) m false).isfullscreen = false := by
  simp [setfullscreen, resizeclient]

/-- Claim C5 (witness): the round-trip at the concrete client of spec
scenario 5 — geometry (100,100,800,600), border 2, non-floating — on a
1920×1080 monitor at the origin. -/
theorem C5_fullscreen_roundtrip_witness :
    (setfullscreen (FsClient.mk 100 100 800 600 0 0 0 0 2 0 false false false)
        (MonRect.mk 0 0 1920 1080) true).w = 1920 ∧
    (setfullscreen (setfullscreen
        (FsClient.mk 100 100 800 600 0 0 0 0 2 0 false false false)
        (MonRect.mk 0 0 1920 1080) true) (MonRect.mk 0 0 1920 1080) false).x = 100 :=
  let c := FsClient.mk 100 100 800 600 0 0 0 0 2 0 false false false
  let m := MonRect.mk 0 0 1920 1080
  let h := C5_fullscreen_roundtrip c m rfl
  ⟨h.2.2.2.2.2.1, h.2.2.2.2.2.2.2.1⟩


/-! ### Claims C1 and C9 — the tag invariants, as a state machine

The global state, projected onto the fields the tag invariants are
about: the list of monitors (their tag-set slots) and the list of
managed clients (their tag mask and owning monitor).  The client
*order* inside per-monitor lists is not tracked here (claim C7's model
does); only membership and the tag fields matter for C1/C9.  Every
operation of the program that writes `c->tags`, `m->tagset[..]` or
`m->seltags` appears as a step: `applyrules`/`manage`, `tag`,
`toggletag`, `sendmon`, `view` (also reached via `shiftview` and
`cleanup`), `toggleview`, the `_NET_ACTIVE_WINDOW` client message, and
monitor creation/removal in `updategeom`. -/

structure WMState where
  mons : List Mon
  clients : List Cli
deriving DecidableEq, Repr

/-- The state after `setup()` on a single-screen display: one monitor
from `createmon()`, no clients yet. -/
def initState : WMState :=
  { mons := [createmon], clients := [] }

/-- A new monitor appended by `updategeom` (`m->next = createmon()`). -/
def WMState.addmonOp (s : WMState) : WMState :=
  { s with mons := s.mons ++ [createmon] }

/-- The `nn < n` branch of `updategeom`: the last monitor is drained
into the primary monitor (`c->mon = mons;` — tags are untouched) and
freed. -/
def WMState.removemonOp (s : WMState) : WMState :=
  if s.mons.length ≤ 1 then s
  else
    { mons := s.mons.dropLast,
      clients := s.clients.map fun c =>
        if c.mon = s.mons.length - 1 then { c with mon := 0 } else c }

/-- `manage` without a transient hint: `c->mon = selmon; applyrules(c);`
(a rule with a valid `r->monitor` may re-point `c->mon`, so the monitor
index `mIdx` is any live monitor). -/
def WMState.manageRuleOp (s : WMState) (matched : List Nat) (mIdx : Nat) : WMState :=
  match s.mons[mIdx]? with
  | none => s
  | some mm => { s with clients := s.clients ++ [⟨applyrulesTags matched mm, mIdx⟩] }

/-- `manage` with a transient hint resolving to the managed client at
index `i`: `c->mon = t->mon; c->tags = t->tags;`. -/
def WMState.manageTransientOp (s : WMState) (i : Nat) : WMState :=
  match s.clients[i]? with
  | none => s
  | some t => { s with clients := s.clients ++ [⟨t.tags, t.mon⟩] }

/-- `tag(arg)` on the selected client (here: the client at index `i`):

    if(selmon->sel && arg->ui & TAGMASK) {
      selmon->sel->tags = arg->ui & TAGMASK; ... }
-/
def WMState.tagOp (s : WMState) (i ui : Nat) : WMState :=
  match s.clients[i]? with
  | none => s
  | some c =>
      if ui &&& TAGMASK ≠ 0 then
        { s with clients := s.clients.set i { c with tags := ui &&& TAGMASK } }
      else s

/-- `toggletag(arg)` on the selected client (index `i`):

    newtags = selmon->sel->tags ^ (arg->ui & TAGMASK);
    if(newtags) { selmon->sel->tags = newtags; ... }
-/
def WMState.toggletagOp (s : WMState) (i ui : Nat) : WMState :=
  match s.clients[i]? with
  | none => s
  | some c =>
      let newtags := c.tags ^^^ (ui &&& TAGMASK)
      if newtags ≠ 0 then
        { s with clients := s.clients.set i { c with tags := newtags } }
      else s

/-- `sendmon(c, m)` (client at index `i`, target monitor index `mi`):

    if(c->mon == m) return;
    ... c->mon = m;
    c->tags = m->tagset[m->seltags]; /* assign tags of target monitor */
-/
def WMState.sendmonOp (s : WMState) (i mi : Nat) : WMState :=
  match s.clients[i]?, s.mons[mi]? with
  | some c, some mm =>
      if c.mon = mi then s
      else { s with clients := s.clients.set i { c with tags := mm.cur, mon := mi } }
  | _, _ => s

/-- `view(arg)` on the monitor at index `mi`. -/
def WMState.viewOp (s : WMState) (mi ui : Nat) : WMState :=
  match s.mons[mi]? with
  | none => s
  | some mm => { s with mons := s.mons.set mi (mm.view ui) }

/-- `toggleview(arg)` on the monitor at index `mi`. -/
def WMState.toggleviewOp (s : WMState) (mi ui : Nat) : WMState :=
  match s.mons[mi]? with
  | none => s
  | some mm => { s with mons := s.mons.set mi (mm.toggleview ui) }

/-- The `_NET_ACTIVE_WINDOW` client message for the managed client at
index `i`: if the client is not visible, its monitor swaps to a tag-set
equal to the client's tags (the following `pop` does not touch tags). -/
def WMState.clientmsgOp (s : WMState) (i : Nat) : WMState :=
  match s.clients[i]? with
  | none => s
  | some c =>
      match s.mons[c.mon]? with
      | none => s
      | some mm => { s with mons := s.mons.set c.mon (mm.netActiveSwap c.tags) }

/-- `unmanage` of the client at index `i` (tags of the others are
untouched). -/
def WMState.unmanageOp (s : WMState) (i : Nat) : WMState :=
  { s with clients := s.clients.eraseIdx i }

/-- One handler-level mutation of the tag state. -/
inductive Step : WMState → WMState → Prop where
  | addmon (s : WMState) : Step s s.addmonOp
  | removemon (s : WMState) : Step s s.removemonOp
  | manageRule (s : WMState) (matched : List Nat) (mIdx : Nat) :
      Step s (s.manageRuleOp matched mIdx)
  | manageTransient (s : WMState) (i : Nat) : Step s (s.manageTransientOp i)
  | tag (s : WMState) (i ui : Nat) : Step s (s.tagOp i ui)
  | toggletag (s : WMState) (i ui : Nat) : Step s (s.toggletagOp i ui)
  | sendmon (s : WMState) (i mi : Nat) : Step s (s.sendmonOp i mi)
  | view (s : WMState) (mi ui : Nat) : Step s (s.viewOp mi ui)
  | toggleview (s : WMState) (mi ui : Nat) : Step s (s.toggleviewOp mi ui)
  | clientmsg (s : WMState) (i : Nat) : Step s (s.clientmsgOp i)
  | unmanage (s : WMState) (i : Nat) : Step s (s.unmanageOp i)

/-- States reachable from startup by handler-level mutations. -/
inductive Reachable : WMState → Prop where
  | init : Reachable initState
  | step {s s' : WMState} : Reachable s → Step s s' → Reachable s'

/-- Well-formedness of a client record: nonzero tags inside `TAGMASK`
(`2^9` is one past `TAGMASK = 2^9 - 1`) and a live monitor index. -/
def CliWF (nmons : Nat) (c : Cli) : Prop :=
  c.tags ≠ 0 ∧ c.tags < 2 ^ 9 ∧ c.mon < nmons

/-- Well-formedness of a monitor's tag-set state: both slots nonzero
and inside `TAGMASK`, `seltags ∈ {0, 1}`. -/
def MonWF (m : Mon) : Prop :=
  m.tagset0 ≠ 0 ∧ m.tagset0 < 2 ^ 9 ∧ m.tagset1 ≠ 0 ∧ m.tagset1 < 2 ^ 9 ∧
    m.seltags < 2

/-- The joint tag invariant. -/
def Inv (s : WMState) : Prop :=
  (∀ c ∈ s.clients, CliWF s.mons.length c) ∧ (∀ m ∈ s.mons, MonWF m)

theorem MonWF.cur_ne_zero {m : Mon} (h : MonWF m) : m.cur ≠ 0 := by
  unfold Mon.cur
  split
  · exact h.1
  · exact h.2.2.1

theorem MonWF.cur_lt {m : Mon} (h : MonWF m) : m.cur < 2 ^ 9 := by
  unfold Mon.cur
  split
  · exact h.2.1
  · exact h.2.2.2.1

theorem MonWF.setCur {m : Mon} (h : MonWF m) {v : Nat} (hv : v ≠ 0)
    (hlt : v < 2 ^ 9) : MonWF (m.setCur v) := by
  unfold Mon.setCur
  split <;> exact ⟨by first | exact hv | exact h.1, by first | exact hlt | exact h.2.1,
    by first | exact hv | exact h.2.2.1, by first | exact hlt | exact h.2.2.2.1, h.2.2.2.2⟩

theorem MonWF.flip {m : Mon} (h : MonWF m) :
    MonWF ({ m with seltags := m.seltags ^^^ 1 } : Mon) :=
  ⟨h.1, h.2.1, h.2.2.1, h.2.2.2.1, Mon.seltags_flip_lt m h.2.2.2.2⟩

theorem and_TAGMASK_lt (ui : Nat) : ui &&& TAGMASK < 2 ^ 9 :=
  Nat.and_lt_two_pow ui (by decide)

theorem MonWF.view {m : Mon} (h : MonWF m) (ui : Nat) : MonWF (m.view ui) := by
  unfold Mon.view
  split
  · exact h
  · split
    · exact h.flip.setCur (by assumption) (and_TAGMASK_lt ui)
    · exact h.flip

theorem MonWF.toggleview {m : Mon} (h : MonWF m) (ui : Nat) :
    MonWF (m.toggleview ui) := by
  unfold Mon.toggleview
  simp only []
  split
  · exact h.setCur (by assumption)
      (Nat.xor_lt_two_pow h.cur_lt (and_TAGMASK_lt ui))
  · exact h

theorem MonWF.netActiveSwap {m : Mon} (h : MonWF m) {ctags : Nat}
    (hc : ctags ≠ 0) (hlt : ctags < 2 ^ 9) : MonWF (m.netActiveSwap ctags) := by
  unfold Mon.netActiveSwap
  split
  · exact h.flip.setCur hc hlt
  · exact h

theorem createmon_WF : MonWF createmon := by
  constructor <;> simp [createmon, startuptags]

theorem Inv_initState : Inv initState := by
  refine ⟨by simp [initState], ?_⟩
  intro m hm
  simp [initState] at hm
  rw [hm]
  exact createmon_WF

theorem Inv.addmon {s : WMState} (h : Inv s) : Inv s.addmonOp := by
  obtain ⟨hc, hm⟩ := h
  refine ⟨?_, ?_⟩
  · intro c hcm
    obtain ⟨h1, h2, h3⟩ := hc c hcm
    exact ⟨h1, h2, by simpa [WMState.addmonOp] using Nat.lt_succ_of_lt h3⟩
  · intro m hmm
    simp [WMState.addmonOp] at hmm
    rcases hmm with hmm | hmm
    · exact hm m hmm
    · rw [hmm]; exact createmon_WF

theorem Inv.removemon {s : WMState} (h : Inv s) : Inv s.removemonOp := by
  obtain ⟨hc, hm⟩ := h
  unfold WMState.removemonOp
  split
  · exact ⟨hc, hm⟩
  · rename_i hlen
    push_neg at hlen
    refine ⟨?_, ?_⟩
    · intro c hcm
      simp only [List.mem_map] at hcm
      obtain ⟨c0, hc0, hc0e⟩ := hcm
      obtain ⟨h1, h2, h3⟩ := hc c0 hc0
      by_cases hmon : c0.mon = s.mons.length - 1
      · rw [if_pos hmon] at hc0e
        subst hc0e
        exact ⟨h1, h2, by simp only [List.length_dropLast]; omega⟩
      · rw [if_neg hmon] at hc0e
        subst hc0e
        exact ⟨h1, h2, by simp only [List.length_dropLast]; omega⟩
    · intro m hmm
      exact hm m (List.mem_of_mem_dropLast hmm)

theorem Inv.manageRule {s : WMState} (h : Inv s) (matched : List Nat)
    (mIdx : Nat) : Inv (s.manageRuleOp matched mIdx) := by
  obtain ⟨hc, hm⟩ := h
  cases hmem : s.mons[mIdx]? with
  | none => simp only [WMState.manageRuleOp, hmem]; exact ⟨hc, hm⟩
  | some mm =>
    have hmmWF : MonWF mm := hm mm (List.getElem?_mem hmem)
    simp only [WMState.manageRuleOp, hmem]
    have hlt : mIdx < s.mons.length := by
      by_contra hge
      rw [List.getElem?_eq_none (by omega)] at hmem
      exact Option.noConfusion hmem
    refine ⟨?_, hm⟩
    intro c hcm
    simp only [List.mem_append, List.mem_singleton] at hcm
    rcases hcm with hcm | hcm
    · exact hc c hcm
    · rw [hcm]
      unfold applyrulesTags
      refine ⟨?_, ?_, hlt⟩ <;> simp only []
      · split
        · assumption
        · exact hmmWF.cur_ne_zero
      · split
        · exact and_TAGMASK_lt _
        · exact hmmWF.cur_lt

theorem Inv.manageTransient {s : WMState} (h : Inv s) (i : Nat) :
    Inv (s.manageTransientOp i) := by
  obtain ⟨hc, hm⟩ := h
  cases hmem : s.clients[i]? with
  | none => simp only [WMState.manageTransientOp, hmem]; exact ⟨hc, hm⟩
  | some t =>
    have htWF := hc t (List.getElem?_mem hmem)
    simp only [WMState.manageTransientOp, hmem]
    refine ⟨?_, hm⟩
    intro c hcm
    simp only [List.mem_append, List.mem_singleton] at hcm
    rcases hcm with hcm | hcm
    · exact hc c hcm
    · rw [hcm]; exact htWF

theorem Inv.tagOp {s : WMState} (h : Inv s) (i ui : Nat) :
    Inv (s.tagOp i ui) := by
  obtain ⟨hc, hm⟩ := h
  cases hmem : s.clients[i]? with
  | none => simp only [WMState.tagOp, hmem]; exact ⟨hc, hm⟩
  | some c0 =>
    have hc0 := hc c0 (List.getElem?_mem hmem)
    simp only [WMState.tagOp, hmem]
    split
    · refine ⟨?_, hm⟩
      intro c hcm
      rcases List.mem_or_eq_of_mem_set hcm with hcm | hcm
      · exact hc c hcm
      · rw [hcm]
        exact ⟨by assumption, and_TAGMASK_lt ui, hc0.2.2⟩
    · exact ⟨hc, hm⟩

theorem Inv.toggletagOp {s : WMState} (h : Inv s) (i ui : Nat) :
    Inv (s.toggletagOp i ui) := by
  obtain ⟨hc, hm⟩ := h
  cases hmem : s.clients[i]? with
  | none => simp only [WMState.toggletagOp, hmem]; exact ⟨hc, hm⟩
  | some c0 =>
    have hc0 := hc c0 (List.getElem?_mem hmem)
    simp only [WMState.toggletagOp, hmem]
    split
    · refine ⟨?_, hm⟩
      intro c hcm
      rcases List.mem_or_eq_of_mem_set hcm with hcm | hcm
      · exact hc c hcm
      · rw [hcm]
        exact ⟨by assumption,
          Nat.xor_lt_two_pow hc0.2.1 (and_TAGMASK_lt ui), hc0.2.2⟩
    · exact ⟨hc, hm⟩

theorem Inv.sendmonOp {s : WMState} (h : Inv s) (i mi : Nat) :
    Inv (s.sendmonOp i mi) := by
  obtain ⟨hc, hm⟩ := h
  cases hmemc : s.clients[i]? with
  | none => simp only [WMState.sendmonOp, hmemc]; exact ⟨hc, hm⟩
  | some c0 =>
    cases hmemm : s.mons[mi]? with
    | none => simp only [WMState.sendmonOp, hmemc, hmemm]; exact ⟨hc, hm⟩
    | some mm =>
      simp only [WMState.sendmonOp, hmemc, hmemm]
      have hmmWF := hm mm (List.getElem?_mem hmemm)
      have hlt : mi < s.mons.length := by
        by_contra hge
        rw [List.getElem?_eq_none (by omega)] at hmemm
        exact Option.noConfusion hmemm
      split
      · exact ⟨hc, hm⟩
      · refine ⟨?_, hm⟩
        intro c hcm
        rcases List.mem_or_eq_of_mem_set hcm with hcm | hcm
        · exact hc c hcm
        · rw [hcm]
          exact ⟨hmmWF.cur_ne_zero, hmmWF.cur_lt, hlt⟩

theorem Inv.viewOp {s : WMState} (h : Inv s) (mi ui : Nat) :
    Inv (s.viewOp mi ui) := by
  obtain ⟨hc, hm⟩ := h
  cases hmem : s.mons[mi]? with
  | none => simp only [WMState.viewOp, hmem]; exact ⟨hc, hm⟩
  | some mm =>
    have hmmWF := hm mm (List.getElem?_mem hmem)
    simp only [WMState.viewOp, hmem]
    refine ⟨by simpa using hc, ?_⟩
    intro m hmm
    rcases List.mem_or_eq_of_mem_set hmm with hmm | hmm
    · exact hm m hmm
    · rw [hmm]; exact hmmWF.view ui

theorem Inv.toggleviewOp {s : WMState} (h : Inv s) (mi ui : Nat) :
    Inv (s.toggleviewOp mi ui) := by
  obtain ⟨hc, hm⟩ := h
  cases hmem : s.mons[mi]? with
  | none => simp only [WMState.toggleviewOp, hmem]; exact ⟨hc, hm⟩
  | some mm =>
    have hmmWF := hm mm (List.getElem?_mem hmem)
    simp only [WMState.toggleviewOp, hmem]
    refine ⟨by simpa using hc, ?_⟩
    intro m hmm
    rcases List.mem_or_eq_of_mem_set hmm with hmm | hmm
    · exact hm m hmm
    · rw [hmm]; exact hmmWF.toggleview ui

theorem Inv.clientmsgOp {s : WMState} (h : Inv s) (i : Nat) :
    Inv (s.clientmsgOp i) := by
  obtain ⟨hc, hm⟩ := h
  cases hmemc : s.clients[i]? with
  | none => simp only [WMState.clientmsgOp, hmemc]; exact ⟨hc, hm⟩
  | some c0 =>
    have hc0 := hc c0 (List.getElem?_mem hmemc)
    cases hmemm : s.mons[c0.mon]? with
    | none => simp only [WMState.clientmsgOp, hmemc, hmemm]; exact ⟨hc, hm⟩
    | some mm =>
      have hmmWF := hm mm (List.getElem?_mem hmemm)
      simp only [WMState.clientmsgOp, hmemc, hmemm]
      refine ⟨by simpa using hc, ?_⟩
      intro m hmm
      rcases List.mem_or_eq_of_mem_set hmm with hmm | hmm
      · exact hm m hmm
      · rw [hmm]; exact hmmWF.netActiveSwap hc0.1 hc0.2.1

theorem Inv.unmanageOp {s : WMState} (h : Inv s) (i : Nat) :
    Inv (s.unmanageOp i) := by
  obtain ⟨hc, hm⟩ := h
  exact ⟨fun c hcm => hc c (List.mem_of_mem_eraseIdx hcm), hm⟩

theorem Inv.step {s s' : WMState} (h : Inv s) (hs : Step s s') : Inv s' := by
  cases hs with
  | addmon => exact h.addmon
  | removemon => exact h.removemon
  | manageRule matched mIdx => exact h.manageRule matched mIdx
  | manageTransient i => exact h.manageTransient i
  | tag i ui => exact h.tagOp i ui
  | toggletag i ui => exact h.toggletagOp i ui
  | sendmon i mi => exact h.sendmonOp i mi
  | view mi ui => exact h.viewOp mi ui
  | toggleview mi ui => exact h.toggleviewOp mi ui
  | clientmsg i => exact h.clientmsgOp i
  | unmanage i => exact h.unmanageOp i

/-- The tag invariant holds in every reachable state. -/
theorem Inv_reachable {s : WMState} (h : Reachable s) : Inv s := by
  induction h with
  | init => exact Inv_initState
  | step _ hs ih => exact ih.step hs

theorem tags_and_TAGMASK_of_lt {t : Nat} (h : t < 2 ^ 9) :
    t &&& TAGMASK = t := by
  have : TAGMASK = 2 ^ 9 - 1 := by decide
  rw [this]
  exact Nat.and_pow_two_sub_one_of_lt_two_pow h

/-- Claim C1: in every reachable state, every managed client has a
nonzero tag mask contained in `TAGMASK`, and each of the
tag-mutating operations — `manage`/`applyrules` (both the rule path
and the transient path), `tag`, `toggletag` and `sendmon` — preserves
this. -/
theorem C1_client_tags_invariant (s : WMState) (h : Reachable s) :
    (∀ c ∈ s.clients, c.tags ≠ 0 ∧ c.tags &&& TAGMASK = c.tags) ∧
    (∀ matched mIdx, ∀ c ∈ (s.manageRuleOp matched mIdx).clients,
        c.tags ≠ 0 ∧ c.tags &&& TAGMASK = c.tags) ∧
    (∀ i, ∀ c ∈ (s.manageTransientOp i).clients,
        c.tags ≠ 0 ∧ c.tags &&& TAGMASK = c.tags) ∧
    (∀ i ui, ∀ c ∈ (s.tagOp i ui).clients,
        c.tags ≠ 0 ∧ c.tags &&& TAGMASK = c.tags) ∧
    (∀ i ui, ∀ c ∈ (s.toggletagOp i ui).clients,
        c.tags ≠ 0 ∧ c.tags &&& TAGMASK = c.tags) ∧
    (∀ i mi, ∀ c ∈ (s.sendmonOp i mi).clients,
        c.tags ≠ 0 ∧ c.tags &&& TAGMASK = c.tags) := by
  have core : ∀ {s' : WMState}, Inv s' →
      ∀ c ∈ s'.clients, c.tags ≠ 0 ∧ c.tags &&& TAGMASK = c.tags := by
    intro s' hinv c hcm
    obtain ⟨h1, h2, _⟩ := hinv.1 c hcm
    exact ⟨h1, tags_and_TAGMASK_of_lt h2⟩
  have hinv := Inv_reachable h
  exact ⟨core hinv,
    fun matched mIdx => core (hinv.manageRule matched mIdx),
    fun i => core (hinv.manageTransient i),
    fun i ui => core (hinv.tagOp i ui),
    fun i ui => core (hinv.toggletagOp i ui),
    fun i mi => core (hinv.sendmonOp i mi)⟩

/-- Claim C1 (witness): after managing one client on the startup
monitor (no matching rule, so it inherits the monitor's tag-set), that
client's tags are `1`, nonzero and inside `TAGMASK`. -/
theorem C1_client_tags_invariant_witness :
    (Cli.mk 1 0).tags ≠ 0 ∧ (Cli.mk 1 0).tags &&& TAGMASK = (Cli.mk 1 0).tags :=
  (C1_client_tags_invariant (initState.manageRuleOp [] 0)
      (Reachable.step Reachable.init (Step.manageRule initState [] 0))).1
    (Cli.mk 1 0) (by decide)

/-- Claim C9: in every reachable state, both tag-set slots of every
monitor are nonzero — `createmon` initialises both to `startuptags`,
and `view`, `toggleview` and the `_NET_ACTIVE_WINDOW` handler never
write a zero mask into either slot. -/
theorem C9_tagset_slots_nonzero (s : WMState) (h : Reachable s) :
    (∀ m ∈ s.mons, m.tagset0 ≠ 0 ∧ m.tagset1 ≠ 0) ∧
    (∀ mi ui, ∀ m ∈ (s.viewOp mi ui).mons, m.tagset0 ≠ 0 ∧ m.tagset1 ≠ 0) ∧
    (∀ mi ui, ∀ m ∈ (s.toggleviewOp mi ui).mons, m.tagset0 ≠ 0 ∧ m.tagset1 ≠ 0) ∧
    (∀ i, ∀ m ∈ (s.clientmsgOp i).mons, m.tagset0 ≠ 0 ∧ m.tagset1 ≠ 0) := by
  have core : ∀ {s' : WMState}, Inv s' →
      ∀ m ∈ s'.mons, m.tagset0 ≠ 0 ∧ m.tagset1 ≠ 0 := by
    intro s' hinv m hmm
    obtain ⟨h1, _, h3, _⟩ := hinv.2 m hmm
    exact ⟨h1, h3⟩
  have hinv := Inv_reachable h
  exact ⟨core hinv,
    fun mi ui => core (hinv.viewOp mi ui),
    fun mi ui => core (hinv.toggleviewOp mi ui),
    fun i => core (hinv.clientmsgOp i)⟩

/-- Claim C9 (witness): at startup, the single monitor created by
`createmon` has both slots equal to `startuptags = 1`, nonzero. -/
theorem C9_tagset_slots_nonzero_witness :
    createmon.tagset0 ≠ 0 ∧ createmon.tagset1 ≠ 0 :=
  (C9_tagset_slots_nonzero initState Reachable.init).1 createmon (by decide)

/-! ### Claims C6 and C4 — apply_size_hints, resize and the tile layout

`applysizehints(c, &x, &y, &w, &h, interact)` as a pure function.  C
floats (`mina`, `maxa`, `mfact`) are modeled as exact rationals; the C
float-to-integer conversions truncate toward zero (`ratTrunc`).  C `%`
on `int` is truncated remainder (`Int.tmod`). -/

/-- Truncation toward zero of a rational — the C `(int)`/(unsigned)
conversion applied to a float value. -/
def ratTrunc (q : ℚ) : Int := q.num.tdiv q.den

/-- The client fields consulted by `applysizehints`, `nexttiled` and
`tile`. -/
structure SClient where
  x : Int
  y : Int
  w : Int
  h : Int
  bw : Int
  basew : Int
  baseh : Int
  incw : Int
  inch : Int
  maxw : Int
  maxh : Int
  minw : Int
  minh : Int
  mina : ℚ
  maxa : ℚ
  sizehints : Bool
  isfloating : Bool
  tags : Nat
deriving DecidableEq, Repr

/-- `#define WIDTH(X) ((X)->w + 2 * (X)->bw)` -/
def WIDTH (c : SClient) : Int := c.w + 2 * c.bw

/-- `#define HEIGHT(X) ((X)->h + 2 * (X)->bw)` -/
def HEIGHT (c : SClient) : Int := c.h + 2 * c.bw

/-- The surrounding state `applysizehints` reads: the monitor work
area (`c->mon->wx/wy/ww/wh`), the screen size (`sw`, `sh`), the bar
height (`bh`) and whether the monitor's layout has an arrange function
(`c->mon->lt->arrange`). -/
structure Ctx where
  wx : Int
  wy : Int
  ww : Int
  wh : Int
  sw : Int
  sh : Int
  bh : Int
  arrange : Bool
deriving DecidableEq, Repr

/-- A requested/adjusted rectangle (the `*x, *y, *w, *h` in-out
arguments). -/
structure Geom where
  x : Int
  y : Int
  w : Int
  h : Int
deriving DecidableEq, Repr

/-- The x-coordinate clamps of `applysizehints` (the two `if`s on `*x`
in each mode); `w` is `*w` after `*w = MAX(1, *w)`. -/
def ashX (ctx : Ctx) (c : SClient) (interact : Bool) (x w : Int) : Int :=
  if interact then
    let x1 := if x ≥ ctx.sw then ctx.sw - WIDTH c else x
    if x1 + w + 2 * c.bw < 0 then 0 else x1
  else
    let x1 := if x ≥ ctx.wx + ctx.ww then ctx.wx + ctx.ww - WIDTH c else x
    if x1 + w + 2 * c.bw ≤ ctx.wx then ctx.wx else x1

/-- The y-coordinate clamps of `applysizehints` (note the asymmetric
`*y > sh` in interactive mode vs `*y >= m->wy + m->wh` otherwise). -/
def ashY (ctx : Ctx) (c : SClient) (interact : Bool) (y h : Int) : Int :=
  if interact then
    let y1 := if y > ctx.sh then ctx.sh - HEIGHT c else y
    if y1 + h + 2 * c.bw < 0 then 0 else y1
  else
    let y1 := if y ≥ ctx.wy + ctx.wh then ctx.wy + ctx.wh - HEIGHT c else y
    if y1 + h + 2 * c.bw ≤ ctx.wy then ctx.wy else y1

/-- The ICCCM 4.1.2.3 body of `applysizehints` (the branch taken when
`c->sizehints || c->isfloating || !c->mon->lt->arrange`): base
subtraction, aspect limits, increment snap, base restore with min/max
clamps. -/
def ashHints (c : SClient) (w h : Int) : Int × Int :=
  let baseismin := c.basew == c.minw && c.baseh == c.minh
  let w := if !baseismin then w - c.basew else w
  let h := if !baseismin then h - c.baseh else h
  let (w, h) :=
    if 0 < c.mina ∧ 0 < c.maxa then
      if c.maxa < (w : ℚ) / (h : ℚ) then (ratTrunc ((h : ℚ) * c.maxa + 1/2), h)
      else if c.mina < (h : ℚ) / (w : ℚ) then (w, ratTrunc ((w : ℚ) * c.mina + 1/2))
      else (w, h)
    else (w, h)
  let w := if baseismin then w - c.basew else w
  let h := if baseismin then h - c.baseh else h
  let w := if c.incw ≠ 0 then w - Int.tmod w c.incw else w
  let h := if c.inch ≠ 0 then h - Int.tmod h c.inch else h
  let w := max (w + c.basew) c.minw
  let h := max (h + c.baseh) c.minh
  let w := if c.maxw ≠ 0 then min w c.maxw else w
  let h := if c.maxh ≠ 0 then min h c.maxh else h
  (w, h)

/-- `applysizehints(c, &x, &y, &w, &h, interact)`: returns the adjusted
rectangle and the `Bool` result (`*x != c->x || *y != c->y || *w != c->w
|| *h != c->h`). -/
def applysizehints (ctx : Ctx) (c : SClient) (g : Geom) (interact : Bool) :
    Geom × Bool :=
  let w := max 1 g.w
  let h := max 1 g.h
  let x := ashX ctx c interact g.x w
  let y := ashY ctx c interact g.y h
  let h := if h < ctx.bh then ctx.bh else h
  let w := if w < ctx.bh then ctx.bh else w
  let (w, h) :=
    if c.sizehints || c.isfloating || !ctx.arrange then ashHints c w h
    else (w, h)
  (⟨x, y, w, h⟩, x != c.x || y != c.y || w != c.w || h != c.h)

/-- `resize(c, x, y, w, h, interact)`: `if(applysizehints(...))
resizeclient(c, x, y, w, h);` — the client's geometry afterwards is
the adjusted rectangle in both cases (when the `Bool` is false the
adjusted rectangle *is* the current geometry). -/
def resize (ctx : Ctx) (c : SClient) (g : Geom) (interact : Bool) : SClient :=
  if (applysizehints ctx c g interact).2 then
    { c with x := (applysizehints ctx c g interact).1.x,
             y := (applysizehints ctx c g interact).1.y,
             w := (applysizehints ctx c g interact).1.w,
             h := (applysizehints ctx c g interact).1.h }
  else c

/-- Claim C6 (counterexample): `apply_size_hints` is not idempotent.
A client honoring size hints with resize increment 7 and maximum width
10 (not a multiple of the increment): a request of width 20 is snapped
to 14 and clamped to 10; re-applying snaps 10 down to 7. -/
theorem C6_applysizehints_counterexample :
    let c : SClient :=
      ⟨0, 0, 0, 0, 0, 0, 0, 7, 0, 10, 0, 0, 0, 0, 0, true, false, 1⟩
    let ctx : Ctx := ⟨0, 0, 100, 100, 100, 100, 1, true⟩
    let g : Geom := ⟨0, 0, 20, 5⟩
    (applysizehints ctx c g false).1 = ⟨0, 0, 10, 5⟩ ∧
    (applysizehints ctx c (applysizehints ctx c g false).1 false).1 = ⟨0, 0, 7, 5⟩ ∧
    (applysizehints ctx c (applysizehints ctx c g false).1 false).1 ≠
      (applysizehints ctx c g false).1 := by
  decide

theorem ashX_fix (ctx : Ctx) (c : SClient) (interact : Bool) (x w0 w1 : Int)
    (hww : 0 < ctx.ww) (hsw : 0 < ctx.sw) (hbw : 0 ≤ c.bw)
    (hw1 : 1 ≤ w1) (hle : w0 ≤ w1) :
    ashX ctx c interact (ashX ctx c interact x w0) w1
      = ashX ctx c interact x w0 := by
  unfold ashX
  cases interact <;> simp only [Bool.false_eq_true, if_true, if_false] <;>
    split_ifs <;> omega

theorem ashY_fix (ctx : Ctx) (c : SClient) (interact : Bool) (y h0 h1 : Int)
    (hwh : 0 < ctx.wh) (hsh : 0 < ctx.sh) (hbw : 0 ≤ c.bw)
    (hh1 : 1 ≤ h1) (hle : h0 ≤ h1) :
    ashY ctx c interact (ashY ctx c interact y h0) h1
      = ashY ctx c interact y h0 := by
  unfold ashY
  cases interact <;> simp only [Bool.false_eq_true, if_true, if_false] <;>
    split_ifs <;> omega

/-- Claim C6 (amended): `apply_size_hints` is idempotent on every
client for which the ICCCM size-hints body is skipped — a tiled,
non-floating client that does not honor size hints, under a layout
with an arrange function — given a sane environment (positive work
area and screen, nonnegative border).  (For hint-honoring clients a
maximum size that is not a multiple of the resize increment shrinks
the rectangle again on a second application, see the
counterexample.) -/
theorem C6_applysizehints_idem (ctx : Ctx) (c : SClient) (g : Geom)
    (interact : Bool)
    (hsz : c.sizehints = false) (hfl : c.isfloating = false)
    (har : ctx.arrange = true)
    (hww : 0 < ctx.ww) (hwh : 0 < ctx.wh) (hsw : 0 < ctx.sw)
    (hsh : 0 < ctx.sh) (hbw : 0 ≤ c.bw) :
    (applysizehints ctx c (applysizehints ctx c g interact).1 interact).1
      = (applysizehints ctx c g interact).1 := by
  unfold applysizehints
  simp only [hsz, hfl, har, Bool.false_or, Bool.not_true, if_false,
    Bool.false_eq_true]
  have hw' : max 1 (if max 1 g.w < ctx.bh then ctx.bh else max 1 g.w)
      = (if max 1 g.w < ctx.bh then ctx.bh else max 1 g.w) := by
    split_ifs <;> omega
  have hh' : max 1 (if max 1 g.h < ctx.bh then ctx.bh else max 1 g.h)
      = (if max 1 g.h < ctx.bh then ctx.bh else max 1 g.h) := by
    split_ifs <;> omega
  simp only [hw', hh']
  have hwfix : (if (if max 1 g.w < ctx.bh then ctx.bh else max 1 g.w) < ctx.bh
      then ctx.bh else (if max 1 g.w < ctx.bh then ctx.bh else max 1 g.w))
      = (if max 1 g.w < ctx.bh then ctx.bh else max 1 g.w) := by
    split_ifs <;> omega
  have hhfix : (if (if max 1 g.h < ctx.bh then ctx.bh else max 1 g.h) < ctx.bh
      then ctx.bh else (if max 1 g.h < ctx.bh then ctx.bh else max 1 g.h))
      = (if max 1 g.h < ctx.bh then ctx.bh else max 1 g.h) := by
    split_ifs <;> omega
  rw [ashX_fix ctx c interact g.x (max 1 g.w) _ hww hsw hbw (by split_ifs <;> omega)
      (by split_ifs <;> omega),
    ashY_fix ctx c interact g.y (max 1 g.h) _ hwh hsh hbw (by split_ifs <;> omega)
      (by split_ifs <;> omega),
    hwfix, hhfix]

/-- Claim C6 (witness): the amended idempotence at a concrete tiled
client and work area. -/
theorem C6_applysizehints_idem_witness :
    (applysizehints (Ctx.mk 0 0 1920 1080 1920 1080 18 true)
      (SClient.mk 5 5 50 50 2 0 0 0 0 0 0 0 0 0 0 false false 1)
      ((applysizehints (Ctx.mk 0 0 1920 1080 1920 1080 18 true)
        (SClient.mk 5 5 50 50 2 0 0 0 0 0 0 0 0 0 0 false false 1)
        (Geom.mk 3000 (-40) 7 2000) false).1) false).1
    = (applysizehints (Ctx.mk 0 0 1920 1080 1920 1080 18 true)
      (SClient.mk 5 5 50 50 2 0 0 0 0 0 0 0 0 0 0 false false 1)
      (Geom.mk 3000 (-40) 7 2000) false).1 :=
  C6_applysizehints_idem (Ctx.mk 0 0 1920 1080 1920 1080 18 true)
    (SClient.mk 5 5 50 50 2 0 0 0 0 0 0 0 0 0 0 false false 1)
    (Geom.mk 3000 (-40) 7 2000) false rfl rfl rfl (by decide) (by decide)
    (by decide) (by decide) (by decide)

/-! ### Claim C7 — monitor removal in updategeom

The `nn < n` branch of `updategeom` drains the last monitor `m` into
the primary monitor `mons`:

    while(m->clients) {
      dirty = True;
      c = m->clients;
      m->clients = c->next;
      detachstack(c);
      c->mon = mons;
      attach(c);
      attachstack(c);
    }

`attach` and `attachstack` insert at the **head** of the primary
monitor's client list and stack. -/

/-- A monitor's two client orders, as lists of client ids (head =
`m->clients` / `m->stack`). -/
structure LMon where
  clients : List Nat
  stack : List Nat
deriving DecidableEq, Repr

/-- The drain loop above: `cs` is the removed monitor's remaining
client list, `rmstack` its remaining stack (`detachstack(c)` unlinks
`c` from it — the removed monitor is freed right afterwards, and its
`sel` update in `detachstack` dies with it), and `p` the primary
monitor accumulating `attach`/`attachstack` insertions at the head. -/
def drainLoop : List Nat → List Nat → LMon → LMon
  | [], _, p => p
  | c :: rest, rmstack, p =>
      drainLoop rest (rmstack.erase c) ⟨c :: p.clients, c :: p.stack⟩

/-- The client movement of `updategeom`'s removal branch for one
removed monitor `rm` into the primary monitor `p`. -/
def updategeomDrain (p rm : LMon) : LMon :=
  drainLoop rm.clients rm.stack p

theorem drainLoop_spec (cs rmstack : List Nat) (p : LMon) :
    drainLoop cs rmstack p = ⟨cs.reverse ++ p.clients, cs.reverse ++ p.stack⟩ := by
  induction cs generalizing rmstack p with
  | nil => simp [drainLoop]
  | cons c rest ih =>
      rw [drainLoop, ih]
      simp

/-- Claim C7 (counterexample): primary monitor with clients `[0, 1]`
(stack `[1, 0]`), removed monitor with clients `[2, 3]` (stack
`[3, 2]`).  After the drain the primary client list is `[3, 2, 0, 1]` —
the removed monitor's clients are *prepended in reverse order*, not
appended in order (`[0, 1, 2, 3]`) as the claim states; likewise for
the stack. -/
theorem C7_drain_counterexample :
    (updategeomDrain ⟨[0, 1], [1, 0]⟩ ⟨[2, 3], [3, 2]⟩).clients = [3, 2, 0, 1] ∧
    (updategeomDrain ⟨[0, 1], [1, 0]⟩ ⟨[2, 3], [3, 2]⟩).clients ≠ [0, 1, 2, 3] ∧
    (updategeomDrain ⟨[0, 1], [1, 0]⟩ ⟨[2, 3], [3, 2]⟩).stack = [3, 2, 1, 0] ∧
    (updategeomDrain ⟨[0, 1], [1, 0]⟩ ⟨[2, 3], [3, 2]⟩).stack ≠ [1, 0, 2, 3] := by
  decide

/-- Claim C7 (amended): when `update_geom` removes a monitor, its
clients are drained in client-list order and each is attached at the
*head* of the primary monitor's client list and focus stack, so both
end up with the removed monitor's clients prepended in reversed
client-list order (the drained stack order follows the client list,
not the removed monitor's stack).  The managed-client partition is
preserved: the primary monitor's new list and stack hold exactly its
old clients plus the removed monitor's clients, and list and stack
hold the same client set. -/
theorem C7_drain_prepends_reversed (p rm : LMon)
    (hp : p.clients.Perm p.stack) :
    (updategeomDrain p rm).clients = rm.clients.reverse ++ p.clients ∧
    (updategeomDrain p rm).stack = rm.clients.reverse ++ p.stack ∧
    (updategeomDrain p rm).clients.Perm (p.clients ++ rm.clients) ∧
    (updategeomDrain p rm).clients.Perm ((updategeomDrain p rm).stack) := by
  rw [updategeomDrain, drainLoop_spec]
  refine ⟨rfl, rfl, ?_, ?_⟩
  · exact ((List.reverse_perm rm.clients).append_right p.clients).trans
      List.perm_append_comm
  · exact (List.Perm.refl rm.clients.reverse).append hp

/-- Claim C7 (witness): the amended theorem at the counterexample
state. -/
theorem C7_drain_prepends_reversed_witness :
    (updategeomDrain ⟨[0, 1], [1, 0]⟩ ⟨[2, 3], [3, 2]⟩).clients
      = [2, 3].reverse ++ [0, 1] :=
  (C7_drain_prepends_reversed ⟨[0, 1], [1, 0]⟩ ⟨[2, 3], [3, 2]⟩ (by decide)).1

/-! ### Claim C2 — the selected-client visibility invariant

The focus-stack model: monitors carry their tag-set state, their focus
stack (head = `m->stack`) and their selected client `m->sel`; clients
are identified by indices into `ctags`/`cmon` (tag mask and owning
monitor).  The per-monitor `clients` list of `attach` is not modeled —
the visibility invariant reads only stacks, selections, tags and
tag-sets.  All X11 calls (`grabbuttons`, `setborder`, `setfocus`,
`unfocus`'s border/property writes) are dropped. -/

structure FMon where
  tagset0 : Nat
  tagset1 : Nat
  seltags : Nat
  stack : List Nat
  sel : Option Nat
deriving DecidableEq, Repr, Inhabited

/-- `m->tagset[m->seltags]`. -/
def FMon.cur (m : FMon) : Nat :=
  if m.seltags = 0 then m.tagset0 else m.tagset1

structure FState where
  mons : List FMon
  ctags : List Nat
  cmon : List Nat
  selmon : Nat
deriving DecidableEq, Repr

/-- `c->tags` of client `cid`. -/
def FState.tagsOf (s : FState) (cid : Nat) : Nat := s.ctags.getD cid 0

/-- The index of `c->mon` for client `cid`. -/
def FState.monOf (s : FState) (cid : Nat) : Nat := s.cmon.getD cid 0

/-- The monitor record at index `mi`. -/
def FState.monAt (s : FState) (mi : Nat) : FMon := s.mons.getD mi default

/-- Replace the monitor record at index `mi`. -/
def FState.setMonAt (s : FState) (mi : Nat) (m : FMon) : FState :=
  { s with mons := s.mons.set mi m }

/-- `ISVISIBLE(C)`: `C->tags & C->mon->tagset[C->mon->seltags]`. -/
def FState.visible (s : FState) (cid : Nat) : Bool :=
  s.tagsOf cid &&& (s.monAt (s.monOf cid)).cur != 0

/-- `for(t = stack; t && !ISVISIBLE(t); t = t->snext);` — the first
visible client on a stack. -/
def FState.firstVisible (s : FState) : List Nat → Option Nat
  | [] => none
  | t :: rest => if s.visible t then some t else s.firstVisible rest

/-- `detachstack(c)`: unlink `c` from its monitor's stack; if `c` was
the selected client, re-select the first visible client of the
remaining stack:

    for(tc = &c->mon->stack; *tc && *tc != c; tc = &(*tc)->snext);
    *tc = c->snext;
    if(c == c->mon->sel) {
      for(t = c->mon->stack; t && !ISVISIBLE(t); t = t->snext);
      c->mon->sel = t;
    }
-/
def FState.detachstack (s : FState) (cid : Nat) : FState :=
  let mi := s.monOf cid
  let m := s.monAt mi
  let st := m.stack.erase cid
  let sel := if m.sel = some cid then s.firstVisible st else m.sel
  s.setMonAt mi { m with stack := st, sel := sel }

/-- `attachstack(c)`: `c->snext = c->mon->stack; c->mon->stack = c;`. -/
def FState.attachstack (s : FState) (cid : Nat) : FState :=
  let mi := s.monOf cid
  let m := s.monAt mi
  s.setMonAt mi { m with stack := cid :: m.stack }

/-- The stack move and selection of `focus(c)` after `selmon` has been
switched: `detachstack(c); attachstack(c); ... selmon->sel = c;` (the
urgency clear and the X11 grab/border/input calls are dropped). -/
def FState.focusTail (s1 : FState) (cid : Nat) : FState :=
  let s2 := (s1.detachstack cid).attachstack cid
  s2.setMonAt s2.selmon { s2.monAt s2.selmon with sel := some cid }

/-- The non-null tail of `focus(c)`: `if(c->mon != selmon) selmon =
c->mon;` followed by `focusTail`. -/
def FState.focusApply (s : FState) (cid : Nat) : FState :=
  (if s.monOf cid ≠ s.selmon then { s with selmon := s.monOf cid } else s).focusTail cid

/-- `focus(c)` (`c = none` is `focus(NULL)`): if the argument is null
or invisible, take the first visible client of `selmon->stack`, then
run the non-null tail, or clear `selmon->sel` when nothing is
visible. -/
def FState.focus (s : FState) (co : Option Nat) : FState :=
  let c := match co with
    | some cid =>
        if s.visible cid then some cid
        else s.firstVisible (s.monAt s.selmon).stack
    | none => s.firstVisible (s.monAt s.selmon).stack
  match c with
  | some cid => s.focusApply cid
  | none =>
      s.setMonAt s.selmon { s.monAt s.selmon with sel := none }

/-- The tail of `manage(w, wa)` for a new client with tag mask `tags`
on monitor `mi` (from the transient or the rule branch):

    attach(c);  attachstack(c);
    ...
    if (c->mon == selmon) unfocus(selmon->sel, False);   /* sel unchanged */
    c->mon->sel = c;
    arrange(c->mon);   /* does not touch sel/stack/tags */
    ...
    focus(NULL);
-/
def FState.managePre (s : FState) (tags mi : Nat) : FState :=
  let cid := s.ctags.length
  let s1 := { s with ctags := s.ctags ++ [tags], cmon := s.cmon ++ [mi] }
  let s2 := s1.attachstack cid
  s2.setMonAt mi { s2.monAt mi with sel := some cid }

def FState.manageNew (s : FState) (tags mi : Nat) : FState :=
  (s.managePre tags mi).focus none

/-- `manage` of a window whose `WM_TRANSIENT_FOR` hint resolves to the
managed client `t`: the new client inherits `t->mon` and `t->tags`
(claim C10) and then runs the tail above. -/
def FState.manageTransient (s : FState) (t : Nat) : FState :=
  s.manageNew (s.tagsOf t) (s.monOf t)

/-- §3 invariant: the selected client of a monitor, if non-null, is
visible under the monitor's current tag-set. -/
def SelInv (s : FState) : Prop :=
  ∀ mi, ∀ hmi : mi < s.mons.length, ∀ cid, (s.mons[mi]).sel = some cid →
    s.tagsOf cid &&& (s.mons[mi]).cur ≠ 0

/-- `SelInv` away from one monitor index. -/
def SelInvExcept (s : FState) (mx : Nat) : Prop :=
  ∀ mi, ∀ hmi : mi < s.mons.length, mi ≠ mx → ∀ cid, (s.mons[mi]).sel = some cid →
    s.tagsOf cid &&& (s.mons[mi]).cur ≠ 0

/-- Structural well-formedness: `selmon` is a live monitor, the client
tables are consistent, stack members carry their monitor's index and
are real clients, and every client's monitor is live. -/
def FWF (s : FState) : Prop :=
  s.selmon < s.mons.length ∧ s.cmon.length = s.ctags.length ∧
  (∀ mi, ∀ hmi : mi < s.mons.length, ∀ cid ∈ (s.mons[mi]).stack,
    s.monOf cid = mi ∧ cid < s.ctags.length) ∧
  (∀ cid, cid < s.ctags.length → s.monOf cid < s.mons.length)

theorem FState.monAt_lt (s : FState) {mi : Nat} (hmi : mi < s.mons.length) :
    s.monAt mi = s.mons[mi] := by
  unfold FState.monAt
  rw [List.getD_eq_getElem?_getD, List.getElem?_eq_getElem hmi, Option.getD_some]

theorem FState.tagsOf_lt (s : FState) {cid : Nat} (h : s.tagsOf cid ≠ 0) :
    cid < s.ctags.length := by
  by_contra hge
  apply h
  unfold FState.tagsOf
  rw [List.getD_eq_getElem?_getD, List.getElem?_eq_none (by omega), Option.getD_none]

theorem FState.visible_spec (s : FState) {cid : Nat} (h : s.visible cid = true) :
    s.tagsOf cid &&& (s.monAt (s.monOf cid)).cur ≠ 0 := by
  unfold FState.visible at h
  simpa using h

theorem FState.visible_lt (s : FState) {cid : Nat} (h : s.visible cid = true) :
    cid < s.ctags.length := by
  apply s.tagsOf_lt
  intro h0
  have := s.visible_spec h
  rw [h0] at this
  simp at this

theorem FState.firstVisible_some (s : FState) {l : List Nat} {t : Nat}
    (h : s.firstVisible l = some t) : s.visible t = true ∧ t ∈ l := by
  induction l with
  | nil => simp [FState.firstVisible] at h
  | cons a rest ih =>
    rw [FState.firstVisible] at h
    by_cases hv : s.visible a
    · rw [if_pos hv] at h
      cases h
      exact ⟨hv, by simp⟩
    · rw [if_neg hv] at h
      obtain ⟨h1, h2⟩ := ih h
      exact ⟨h1, by simp [h2]⟩

theorem FState.monAt_set_self (s : FState) {mi : Nat} (m : FMon)
    (hmi : mi < s.mons.length) : (s.setMonAt mi m).monAt mi = m := by
  unfold FState.setMonAt
  rw [FState.monAt_lt _ (by simpa using hmi)]
  exact List.getElem_set_self _

theorem FState.monAt_set_ne (s : FState) {mi mj : Nat} (m : FMon)
    (hne : mi ≠ mj) : (s.setMonAt mi m).monAt mj = s.monAt mj := by
  unfold FState.setMonAt FState.monAt
  simp only [List.getD_eq_getElem?_getD]
  rw [List.getElem?_set_ne hne]

theorem FState.monAt_set_oob (s : FState) {mi : Nat} (m : FMon)
    (hmi : s.mons.length ≤ mi) : s.setMonAt mi m = s := by
  unfold FState.setMonAt
  rw [List.set_eq_of_length_le hmi]

theorem FState.detachstack_eq (s : FState) (cid : Nat) :
    s.detachstack cid =
      s.setMonAt (s.monOf cid)
        { s.monAt (s.monOf cid) with
          stack := (s.monAt (s.monOf cid)).stack.erase cid,
          sel := if (s.monAt (s.monOf cid)).sel = some cid
                 then s.firstVisible ((s.monAt (s.monOf cid)).stack.erase cid)
                 else (s.monAt (s.monOf cid)).sel } := rfl

theorem FState.attachstack_eq (s : FState) (cid : Nat) :
    s.attachstack cid =
      s.setMonAt (s.monOf cid)
        { s.monAt (s.monOf cid) with
          stack := cid :: (s.monAt (s.monOf cid)).stack } := rfl

theorem FState.setMonAt_ctags (s : FState) (mi : Nat) (m : FMon) :
    (s.setMonAt mi m).ctags = s.ctags := rfl

theorem FState.setMonAt_cmon (s : FState) (mi : Nat) (m : FMon) :
    (s.setMonAt mi m).cmon = s.cmon := rfl

theorem FState.setMonAt_selmon (s : FState) (mi : Nat) (m : FMon) :
    (s.setMonAt mi m).selmon = s.selmon := rfl

theorem FState.setMonAt_length (s : FState) (mi : Nat) (m : FMon) :
    (s.setMonAt mi m).mons.length = s.mons.length := by
  unfold FState.setMonAt
  simp

theorem FState.setMonAt_tagsOf (s : FState) (mi : Nat) (m : FMon) (cid : Nat) :
    (s.setMonAt mi m).tagsOf cid = s.tagsOf cid := rfl

theorem FState.setMonAt_monOf (s : FState) (mi : Nat) (m : FMon) (cid : Nat) :
    (s.setMonAt mi m).monOf cid = s.monOf cid := rfl

theorem FMon.cur_update_stack_sel (m : FMon) (st : List Nat) (so : Option Nat) :
    ({ m with stack := st, sel := so } : FMon).cur = m.cur := rfl

theorem FMon.cur_update_sel (m : FMon) (so : Option Nat) :
    ({ m with sel := so } : FMon).cur = m.cur := rfl

theorem FMon.cur_update_stack (m : FMon) (st : List Nat) :
    ({ m with stack := st } : FMon).cur = m.cur := rfl

/-- A restatement of `SelInv` through `monAt`. -/
theorem SelInv_monAt {s : FState} :
    SelInv s ↔ ∀ mi, mi < s.mons.length → ∀ cid, (s.monAt mi).sel = some cid →
      s.tagsOf cid &&& (s.monAt mi).cur ≠ 0 := by
  constructor
  · intro h mi hmi cid hsel
    rw [s.monAt_lt hmi] at hsel ⊢
    exact h mi hmi cid hsel
  · intro h mi hmi cid hsel
    rw [← s.monAt_lt hmi] at hsel ⊢
    exact h mi hmi cid hsel

/-- `detachstack` preserves the selected-client visibility invariant on
every monitor: when it re-selects, it picks the first *visible* client
of the remaining stack (or null). -/
theorem SelInv.detachstack {s : FState} (hwf : FWF s) (hinv : SelInv s)
    (cid : Nat) : SelInv (s.detachstack cid) := by
  rw [FState.detachstack_eq, SelInv_monAt]
  intro mj hmj cid' hsel
  rw [FState.setMonAt_length] at hmj
  rw [FState.setMonAt_tagsOf]
  by_cases hne : s.monOf cid = mj
  case neg =>
    rw [FState.monAt_set_ne s _ hne] at hsel ⊢
    exact (SelInv_monAt.mp hinv) mj hmj cid' hsel
  case pos =>
    subst hne
    rw [FState.monAt_set_self s _ hmj] at hsel ⊢
    have hgoal : s.tagsOf cid' &&& (s.monAt (s.monOf cid)).cur ≠ 0 →
        s.tagsOf cid' &&&
          ({ s.monAt (s.monOf cid) with
             stack := (s.monAt (s.monOf cid)).stack.erase cid,
             sel := if (s.monAt (s.monOf cid)).sel = some cid
                    then s.firstVisible ((s.monAt (s.monOf cid)).stack.erase cid)
                    else (s.monAt (s.monOf cid)).sel } : FMon).cur ≠ 0 :=
      fun h => h
  
    by_cases hselc : (s.monAt (s.monOf cid)).sel = some cid
    case neg =>
      rw [if_neg hselc] at hsel
      have hsel' : (s.monAt (s.monOf cid)).sel = some cid' := hsel
      exact hgoal ((SelInv_monAt.mp hinv) (s.monOf cid) hmj cid' hsel')
    case pos =>
      rw [if_pos hselc] at hsel
      have hsel' : s.firstVisible ((s.monAt (s.monOf cid)).stack.erase cid)
          = some cid' := hsel
      obtain ⟨hvis, hmem⟩ := s.firstVisible_some hsel'
      have hmem' : cid' ∈ (s.monAt (s.monOf cid)).stack :=
        List.erase_subset _ _ hmem
      have hmon : s.monOf cid' = s.monOf cid :=
        (hwf.2.2.1 (s.monOf cid) hmj cid'
          (by rw [← s.monAt_lt hmj]; exact hmem')).1
      have hv := s.visible_spec hvis
      rw [hmon] at hv
      exact hgoal hv

theorem FState.detachstack_selmon (s : FState) (cid : Nat) :
    (s.detachstack cid).selmon = s.selmon := rfl

theorem FState.detachstack_ctags (s : FState) (cid : Nat) :
    (s.detachstack cid).ctags = s.ctags := rfl

theorem FState.detachstack_cmon (s : FState) (cid : Nat) :
    (s.detachstack cid).cmon = s.cmon := rfl

theorem FState.detachstack_length (s : FState) (cid : Nat) :
    (s.detachstack cid).mons.length = s.mons.length := by
  rw [FState.detachstack_eq, FState.setMonAt_length]

theorem FState.detachstack_cur (s : FState) (cid mj : Nat) :
    ((s.detachstack cid).monAt mj).cur = (s.monAt mj).cur := by
  rw [FState.detachstack_eq]
  by_cases hne : s.monOf cid = mj
  · subst hne
    by_cases hmi : s.monOf cid < s.mons.length
    · rw [FState.monAt_set_self s _ hmi]
      exact rfl
    · rw [FState.monAt_set_oob s _ (by omega)]
  · rw [FState.monAt_set_ne s _ hne]

theorem FState.attachstack_selmon (s : FState) (cid : Nat) :
    (s.attachstack cid).selmon = s.selmon := rfl

theorem FState.attachstack_ctags (s : FState) (cid : Nat) :
    (s.attachstack cid).ctags = s.ctags := rfl

theorem FState.attachstack_cmon (s : FState) (cid : Nat) :
    (s.attachstack cid).cmon = s.cmon := rfl

theorem FState.attachstack_length (s : FState) (cid : Nat) :
    (s.attachstack cid).mons.length = s.mons.length := by
  rw [FState.attachstack_eq, FState.setMonAt_length]

theorem FState.attachstack_cur (s : FState) (cid mj : Nat) :
    ((s.attachstack cid).monAt mj).cur = (s.monAt mj).cur := by
  rw [FState.attachstack_eq]
  by_cases hne : s.monOf cid = mj
  · subst hne
    by_cases hmi : s.monOf cid < s.mons.length
    · rw [FState.monAt_set_self s _ hmi]
      exact rfl
    · rw [FState.monAt_set_oob s _ (by omega)]
  · rw [FState.monAt_set_ne s _ hne]

theorem FState.attachstack_sel (s : FState) (cid mj : Nat) :
    ((s.attachstack cid).monAt mj).sel = (s.monAt mj).sel := by
  rw [FState.attachstack_eq]
  by_cases hne : s.monOf cid = mj
  · subst hne
    by_cases hmi : s.monOf cid < s.mons.length
    · rw [FState.monAt_set_self s _ hmi]
    · rw [FState.monAt_set_oob s _ (by omega)]
  · rw [FState.monAt_set_ne s _ hne]

theorem FState.attachstack_monAt_ne (s : FState) {cid mj : Nat}
    (hne : s.monOf cid ≠ mj) :
    (s.attachstack cid).monAt mj = s.monAt mj := by
  rw [FState.attachstack_eq, FState.monAt_set_ne s _ hne]

theorem FState.detachstack_monAt_ne (s : FState) {cid mj : Nat}
    (hne : s.monOf cid ≠ mj) :
    (s.detachstack cid).monAt mj = s.monAt mj := by
  rw [FState.detachstack_eq, FState.monAt_set_ne s _ hne]

/-- `attachstack` preserves the selected-client visibility invariant:
it only pushes onto the stack. -/
theorem SelInv.attachstack {s : FState} (hinv : SelInv s) (cid : Nat) :
    SelInv (s.attachstack cid) := by
  rw [SelInv_monAt]
  intro mj hmj cid' hsel
  rw [FState.attachstack_length] at hmj
  rw [FState.attachstack_sel] at hsel
  have : (s.attachstack cid).tagsOf cid' = s.tagsOf cid' := rfl
  rw [this, FState.attachstack_cur]
  exact (SelInv_monAt.mp hinv) mj hmj cid' hsel

theorem FState.focusTail_spec (s1 : FState) (cid : Nat)
    (hsm : s1.selmon = s1.monOf cid) (hmi : s1.monOf cid < s1.mons.length) :
    (s1.focusTail cid).ctags = s1.ctags ∧
    (s1.focusTail cid).cmon = s1.cmon ∧
    (s1.focusTail cid).mons.length = s1.mons.length ∧
    (s1.focusTail cid).selmon = s1.selmon ∧
    (∀ mj, s1.monOf cid ≠ mj → (s1.focusTail cid).monAt mj = s1.monAt mj) ∧
    ((s1.focusTail cid).monAt (s1.monOf cid)).sel = some cid ∧
    ((s1.focusTail cid).monAt (s1.monOf cid)).cur = (s1.monAt (s1.monOf cid)).cur := by
  have hsel2 : ((s1.detachstack cid).attachstack cid).selmon = s1.selmon := rfl
  have hmon2 : ((s1.detachstack cid).attachstack cid).monOf cid = s1.monOf cid := rfl
  have hlen2 : ((s1.detachstack cid).attachstack cid).mons.length = s1.mons.length := by
    rw [FState.attachstack_length, FState.detachstack_length]
  have hft : s1.focusTail cid =
      ((s1.detachstack cid).attachstack cid).setMonAt s1.selmon
        { ((s1.detachstack cid).attachstack cid).monAt s1.selmon with sel := some cid } := rfl
  refine ⟨?_, ?_, ?_, ?_, ?_, ?_, ?_⟩
  · rw [hft, FState.setMonAt_ctags, FState.attachstack_ctags, FState.detachstack_ctags]
  · rw [hft, FState.setMonAt_cmon, FState.attachstack_cmon, FState.detachstack_cmon]
  · rw [hft, FState.setMonAt_length, hlen2]
  · rw [hft, FState.setMonAt_selmon, hsel2]
  · intro mj hne
    rw [hft, FState.monAt_set_ne _ _ (by rw [hsm]; exact hne)]
    rw [(s1.detachstack cid).attachstack_monAt_ne
      (show (s1.detachstack cid).monOf cid ≠ mj from hne)]
    exact s1.detachstack_monAt_ne hne
  · rw [hft, ← hsm, FState.monAt_set_self _ _ (by rw [hlen2, hsm]; exact hmi)]
  · rw [hft, ← hsm, FState.monAt_set_self _ _ (by rw [hlen2, hsm]; exact hmi)]
    have : (({ ((s1.detachstack cid).attachstack cid).monAt s1.selmon with
        sel := some cid } : FMon)).cur =
        (((s1.detachstack cid).attachstack cid).monAt s1.selmon).cur := rfl
    rw [this, hsm, FState.attachstack_cur, FState.detachstack_cur]

theorem FState.focusApply_spec (s : FState) (cid : Nat)
    (hmi : s.monOf cid < s.mons.length) :
    (s.focusApply cid).ctags = s.ctags ∧
    (s.focusApply cid).cmon = s.cmon ∧
    (s.focusApply cid).mons.length = s.mons.length ∧
    (s.focusApply cid).selmon = s.monOf cid ∧
    (∀ mj, s.monOf cid ≠ mj → (s.focusApply cid).monAt mj = s.monAt mj) ∧
    ((s.focusApply cid).monAt (s.monOf cid)).sel = some cid ∧
    ((s.focusApply cid).monAt (s.monOf cid)).cur = (s.monAt (s.monOf cid)).cur := by
  unfold FState.focusApply
  by_cases hms : s.monOf cid ≠ s.selmon
  case pos =>
    rw [if_pos hms]
    obtain ⟨h1, h2, h3, h4, h5, h6, h7⟩ :=
      FState.focusTail_spec { s with selmon := s.monOf cid } cid rfl hmi
    exact ⟨h1, h2, h3, by rw [h4], h5, h6, h7⟩
  case neg =>
    rw [if_neg hms]
    push_neg at hms
    obtain ⟨h1, h2, h3, h4, h5, h6, h7⟩ :=
      FState.focusTail_spec s cid hms.symm hmi
    exact ⟨h1, h2, h3, by rw [h4]; exact hms.symm, h5, h6, h7⟩

theorem FState.focus_spec (s : FState) (hwf : FWF s) (co : Option Nat) :
    (s.focus co).ctags = s.ctags ∧
    (s.focus co).cmon = s.cmon ∧
    (s.focus co).mons.length = s.mons.length ∧
    (s.focus co).selmon < s.mons.length ∧
    (∀ mj, mj ≠ (s.focus co).selmon → (s.focus co).monAt mj = s.monAt mj) ∧
    (∀ cid', ((s.focus co).monAt ((s.focus co).selmon)).sel = some cid' →
        s.tagsOf cid' &&& ((s.focus co).monAt ((s.focus co).selmon)).cur ≠ 0) := by
  have hsome : ∀ cid, s.visible cid = true →
      (s.focusApply cid).ctags = s.ctags ∧
      (s.focusApply cid).cmon = s.cmon ∧
      (s.focusApply cid).mons.length = s.mons.length ∧
      (s.focusApply cid).selmon < s.mons.length ∧
      (∀ mj, mj ≠ (s.focusApply cid).selmon → (s.focusApply cid).monAt mj = s.monAt mj) ∧
      (∀ cid', ((s.focusApply cid).monAt ((s.focusApply cid).selmon)).sel = some cid' →
          s.tagsOf cid' &&& ((s.focusApply cid).monAt ((s.focusApply cid).selmon)).cur ≠ 0) := by
    intro cid hvis
    have hmi : s.monOf cid < s.mons.length :=
      hwf.2.2.2 cid (s.visible_lt hvis)
    obtain ⟨h1, h2, h3, h4, h5, h6, h7⟩ := s.focusApply_spec cid hmi
    refine ⟨h1, h2, h3, by rw [h4]; exact hmi, ?_, ?_⟩
    · intro mj hne
      rw [h4] at hne
      exact h5 mj (fun h => hne h.symm)
    · intro cid' hsel
      rw [h4] at hsel ⊢
      rw [h6] at hsel
      cases hsel
      rw [h7]
      exact s.visible_spec hvis
  have hnone :
      (s.setMonAt s.selmon { s.monAt s.selmon with sel := none }).ctags = s.ctags ∧
      (s.setMonAt s.selmon { s.monAt s.selmon with sel := none }).cmon = s.cmon ∧
      (s.setMonAt s.selmon { s.monAt s.selmon with sel := none }).mons.length
        = s.mons.length ∧
      (s.setMonAt s.selmon { s.monAt s.selmon with sel := none }).selmon
        < s.mons.length ∧
      (∀ mj, mj ≠ (s.setMonAt s.selmon { s.monAt s.selmon with sel := none }).selmon →
        (s.setMonAt s.selmon { s.monAt s.selmon with sel := none }).monAt mj
          = s.monAt mj) ∧
      (∀ cid', ((s.setMonAt s.selmon { s.monAt s.selmon with sel := none }).monAt
            ((s.setMonAt s.selmon { s.monAt s.selmon with sel := none }).selmon)).sel
          = some cid' →
        s.tagsOf cid' &&&
          ((s.setMonAt s.selmon { s.monAt s.selmon with sel := none }).monAt
            ((s.setMonAt s.selmon { s.monAt s.selmon with sel := none }).selmon)).cur
          ≠ 0) := by
    refine ⟨rfl, rfl, s.setMonAt_length _ _, ?_, ?_, ?_⟩
    · rw [FState.setMonAt_selmon]; exact hwf.1
    · intro mj hne
      rw [FState.setMonAt_selmon] at hne
      exact s.monAt_set_ne _ (fun h => hne h.symm)
    · intro cid' hsel
      rw [FState.setMonAt_selmon] at hsel
      rw [s.monAt_set_self _ hwf.1] at hsel
      exact Option.noConfusion hsel
  cases co with
  | none =>
    cases hfv : s.firstVisible (s.monAt s.selmon).stack with
    | none => simpa only [FState.focus, hfv] using hnone
    | some cid =>
      simpa only [FState.focus, hfv] using hsome cid (s.firstVisible_some hfv).1
  | some cid0 =>
    by_cases hv : s.visible cid0 = true
    · simpa only [FState.focus, hv, if_true] using hsome cid0 hv
    · cases hfv : s.firstVisible (s.monAt s.selmon).stack with
      | none =>
        simpa only [FState.focus, hv, if_false, Bool.false_eq_true, hfv] using hnone
      | some cid =>
        simpa only [FState.focus, hv, if_false, Bool.false_eq_true, hfv] using
          hsome cid (s.firstVisible_some hfv).1

/-- A restatement of `SelInvExcept` through `monAt`. -/
theorem SelInvExcept_monAt {s : FState} {mx : Nat} :
    SelInvExcept s mx ↔ ∀ mi, mi < s.mons.length → mi ≠ mx → ∀ cid,
      (s.monAt mi).sel = some cid → s.tagsOf cid &&& (s.monAt mi).cur ≠ 0 := by
  constructor
  · intro h mi hmi hne cid hsel
    rw [s.monAt_lt hmi] at hsel ⊢
    exact h mi hmi hne cid hsel
  · intro h mi hmi hne cid hsel
    rw [← s.monAt_lt hmi] at hsel ⊢
    exact h mi hmi hne cid hsel

/-- `focus` preserves the selected-client visibility invariant: it only
ever selects a visible client (or null). -/
theorem SelInv.focus {s : FState} (hwf : FWF s) (hinv : SelInv s)
    (co : Option Nat) : SelInv (s.focus co) := by
  obtain ⟨h1, h2, h3, h4, h5, h6⟩ := s.focus_spec hwf co
  rw [SelInv_monAt]
  intro mj hmj cid' hsel
  rw [h3] at hmj
  have htg : (s.focus co).tagsOf cid' = s.tagsOf cid' := by
    unfold FState.tagsOf
    rw [h1]
  rw [htg]
  by_cases hsm : mj = (s.focus co).selmon
  · subst hsm
    exact h6 cid' hsel
  · rw [h5 mj hsm] at hsel ⊢
    exact (SelInv_monAt.mp hinv) mj hmj cid' hsel

theorem FState.focus_none_selmon (s : FState) (hwf : FWF s) :
    (s.focus none).selmon = s.selmon := by
  cases hfv : s.firstVisible (s.monAt s.selmon).stack with
  | none =>
    simp only [FState.focus, hfv]
    exact s.setMonAt_selmon _ _
  | some cid =>
    simp only [FState.focus, hfv]
    obtain ⟨hvis, hmem⟩ := s.firstVisible_some hfv
    have hmoncid : s.monOf cid = s.selmon :=
      (hwf.2.2.1 s.selmon hwf.1 cid (by rw [← s.monAt_lt hwf.1]; exact hmem)).1
    have hmi : s.monOf cid < s.mons.length := by rw [hmoncid]; exact hwf.1
    rw [(s.focusApply_spec cid hmi).2.2.2.1, hmoncid]

theorem List.getD_append_lt {l1 l2 : List Nat} {n : Nat} (h : n < l1.length)
    (d : Nat) : (l1 ++ l2).getD n d = l1.getD n d := by
  rw [List.getD_eq_getElem?_getD, List.getD_eq_getElem?_getD,
    List.getElem?_append_left h]

/-- `FWF` restated through `monAt`. -/
theorem FWF_monAt {s : FState} :
    FWF s ↔ (s.selmon < s.mons.length ∧ s.cmon.length = s.ctags.length ∧
      (∀ mi, mi < s.mons.length → ∀ cid ∈ (s.monAt mi).stack,
        s.monOf cid = mi ∧ cid < s.ctags.length) ∧
      (∀ cid, cid < s.ctags.length → s.monOf cid < s.mons.length)) := by
  constructor
  · rintro ⟨h1, h2, h3, h4⟩
    refine ⟨h1, h2, ?_, h4⟩
    intro mi hmi cid hcid
    rw [s.monAt_lt hmi] at hcid
    exact h3 mi hmi cid hcid
  · rintro ⟨h1, h2, h3, h4⟩
    refine ⟨h1, h2, ?_, h4⟩
    intro mi hmi cid hcid
    rw [← s.monAt_lt hmi] at hcid
    exact h3 mi hmi cid hcid

/-- Extending the client tables (the allocation of a new client in
`manage`) preserves well-formedness. -/
theorem FWF.extend {s : FState} (hwf : FWF s) (tags mi : Nat)
    (hmi : mi < s.mons.length) :
    FWF { s with ctags := s.ctags ++ [tags], cmon := s.cmon ++ [mi] } := by
  obtain ⟨h1, h2, h3, h4⟩ := hwf
  refine ⟨h1, by simp [h2], ?_, ?_⟩
  · intro mj hmj cid hcid
    obtain ⟨hm, hlt⟩ := h3 mj hmj cid hcid
    refine ⟨?_, by simp; omega⟩
    show (s.cmon ++ [mi]).getD cid 0 = mj
    rw [List.getD_append_lt (by omega)]
    exact hm
  · intro cid hcid
    simp only [List.length_append, List.length_singleton] at hcid
    by_cases hlt : cid < s.ctags.length
    · show (s.cmon ++ [mi]).getD cid 0 < s.mons.length
      rw [List.getD_append_lt (by omega)]
      exact h4 cid hlt
    · have hcid' : cid = s.cmon.length := by omega
      show (s.cmon ++ [mi]).getD cid 0 < s.mons.length
      rw [hcid', List.getD_eq_getElem?_getD, List.getElem?_concat_length,
        Option.getD_some]
      exact hmi

/-- `attachstack` of a real client preserves well-formedness. -/
theorem FWF.attachstack_wf {s : FState} (hwf : FWF s) (cid : Nat)
    (hcid : cid < s.ctags.length) : FWF (s.attachstack cid) := by
  have hmi : s.monOf cid < s.mons.length := hwf.2.2.2 cid hcid
  rw [FWF_monAt] at hwf ⊢
  obtain ⟨h1, h2, h3, h4⟩ := hwf
  rw [FState.attachstack_eq]
  refine ⟨by rw [FState.setMonAt_selmon, FState.setMonAt_length]; exact h1,
    h2, ?_, fun cid' hc => by rw [FState.setMonAt_length]; exact h4 cid' hc⟩
  intro mj hmj cid' hcid'
  rw [FState.setMonAt_length] at hmj
  by_cases hne : s.monOf cid = mj
  · subst hne
    rw [s.monAt_set_self _ hmi] at hcid'
    have hcid'' : cid' ∈ cid :: (s.monAt (s.monOf cid)).stack := hcid'
    rcases List.mem_cons.mp hcid'' with hc | hc
    · subst hc
      exact ⟨rfl, hcid⟩
    · exact h3 (s.monOf cid) hmi cid' hc
  · rw [s.monAt_set_ne _ hne] at hcid'
    exact h3 mj hmj cid' hcid'

/-- Replacing a monitor record without touching its stack preserves
well-formedness. -/
theorem FWF.setMonAt_stack_eq {s : FState} (hwf : FWF s) (mi : Nat) (m' : FMon)
    (hst : m'.stack = (s.monAt mi).stack) : FWF (s.setMonAt mi m') := by
  by_cases hmi : mi < s.mons.length
  case neg =>
    rw [FState.monAt_set_oob s _ (by omega)]
    exact hwf
  rw [FWF_monAt] at hwf ⊢
  obtain ⟨h1, h2, h3, h4⟩ := hwf
  refine ⟨by rw [FState.setMonAt_selmon, FState.setMonAt_length]; exact h1,
    h2, ?_, fun cid' hc => by rw [FState.setMonAt_length]; exact h4 cid' hc⟩
  intro mj hmj cid' hcid'
  rw [FState.setMonAt_length] at hmj
  by_cases hne : mi = mj
  · subst hne
    rw [s.monAt_set_self _ hmi, hst] at hcid'
    exact h3 mi hmj cid' hcid'
  · rw [s.monAt_set_ne _ hne] at hcid'
    exact h3 mj hmj cid' hcid'

/-- The effect of `focus(NULL)` at the end of `manage`: given the state
`s3` just before it (new client `cid` attached, `c->mon->sel = c`
already executed, differing from the pre-`manage` state `s` as
described by the hypotheses), the visibility invariant holds afterwards
on every monitor other than `mi`, and on `mi` too when `mi` is the
selected monitor or the new client is visible there. -/
theorem manage_focus_core (s3 s : FState) (mi cid tags : Nat)
    (hwf3 : FWF s3)
    (hlen3 : s3.mons.length = s.mons.length)
    (hsm3 : s3.selmon = s.selmon)
    (htg_old : ∀ cid', cid' < s.ctags.length → s3.tagsOf cid' = s.tagsOf cid')
    (htg_new : s3.tagsOf cid = tags)
    (hmonAt_ne : ∀ mj, mj ≠ mi → s3.monAt mj = s.monAt mj)
    (hsel_mi : (s3.monAt mi).sel = some cid)
    (hcur_mi : (s3.monAt mi).cur = (s.monAt mi).cur)
    (hinv : SelInv s) :
    SelInvExcept (s3.focus none) mi ∧
    ((mi = s.selmon ∨ tags &&& (s.monAt mi).cur ≠ 0) →
      SelInv (s3.focus none)) := by
  obtain ⟨f1, f2, f3, f4, f5, f6⟩ := s3.focus_spec hwf3 none
  have hsm4 : (s3.focus none).selmon = s.selmon := by
    rw [s3.focus_none_selmon hwf3, hsm3]
  have htg4 : ∀ x, (s3.focus none).tagsOf x = s3.tagsOf x := by
    intro x
    unfold FState.tagsOf
    rw [f1]
  have hoff : ∀ mj, mj ≠ s.selmon → mj ≠ mi → ∀ cid',
      ((s3.focus none).monAt mj).sel = some cid' →
      (s3.focus none).tagsOf cid' &&& ((s3.focus none).monAt mj).cur ≠ 0 := by
    intro mj hnesm hnemi cid' hsel
    rw [f5 mj (by rw [hsm4]; exact hnesm), hmonAt_ne mj hnemi] at hsel ⊢
    have hv := (SelInv_monAt.mp hinv) mj ?hmj cid' hsel
    case hmj =>
      -- mj is a live monitor: its record came from s via hmonAt_ne; if it
      -- were out of range, monAt would be the default record with sel none
      by_contra hge
      have : s.monAt mj = default := by
        unfold FState.monAt
        rw [List.getD_eq_getElem?_getD, List.getElem?_eq_none (by omega),
          Option.getD_none]
      rw [this] at hsel
      exact Option.noConfusion hsel
    have hne0 : s.tagsOf cid' ≠ 0 := by
      intro h0
      rw [h0] at hv
      simp at hv
    rw [htg4, htg_old cid' (s.tagsOf_lt hne0)]
    exact hv
  have hat : ∀ cid', ((s3.focus none).monAt ((s3.focus none).selmon)).sel
        = some cid' →
      (s3.focus none).tagsOf cid' &&&
        ((s3.focus none).monAt ((s3.focus none).selmon)).cur ≠ 0 := by
    intro cid' hsel
    rw [htg4]
    exact f6 cid' hsel
  constructor
  · rw [SelInvExcept_monAt]
    intro mj hmj hnemi cid' hsel
    by_cases hsm : mj = (s3.focus none).selmon
    · subst hsm
      exact hat cid' hsel
    · rw [hsm4] at hsm
      exact hoff mj hsm hnemi cid' hsel
  · intro hyp
    rw [SelInv_monAt]
    intro mj hmj cid' hsel
    by_cases hsm : mj = (s3.focus none).selmon
    · subst hsm
      exact hat cid' hsel
    · by_cases hnemi : mj = mi
      · subst hnemi
        rw [hsm4] at hsm
        have hmivis : tags &&& (s.monAt mj).cur ≠ 0 := by
          rcases hyp with hyp | hyp
          · exact absurd hyp hsm
          · exact hyp
        rw [f5 mj (by rw [hsm4]; exact hsm)] at hsel ⊢
        rw [hsel_mi] at hsel
        cases hsel
        rw [htg4, htg_new, hcur_mi]
        exact hmivis
      · rw [hsm4] at hsm
        exact hoff mj hsm hnemi cid' hsel

/-- Claim C2 (amended): in a well-formed state satisfying the
selected-client visibility invariant, `detachstack` and `focus`
preserve the invariant on every monitor; `manage` of a new client with
tag mask `tags` on monitor `mi` re-establishes it on every monitor
except possibly `mi` itself — and on `mi` too when `mi` is the selected
monitor (`focus(NULL)` repairs it) or the new client is visible under
`mi`'s tag-set.  (When the rule- or transient-assigned monitor differs
from the selected monitor and the new client is invisible there, the
invariant is genuinely broken — see the counterexample.) -/
theorem C2_sel_visibility (s : FState) (hwf : FWF s) (hinv : SelInv s) :
    (∀ cid, SelInv (s.detachstack cid)) ∧
    (∀ co, SelInv (s.focus co)) ∧
    (∀ tags mi, mi < s.mons.length →
      SelInvExcept (s.manageNew tags mi) mi ∧
      ((mi = s.selmon ∨ tags &&& (s.monAt mi).cur ≠ 0) →
        SelInv (s.manageNew tags mi))) := by
  refine ⟨fun cid => SelInv.detachstack hwf hinv cid,
          fun co => SelInv.focus hwf hinv co, ?_⟩
  intro tags mi hmi
  have hwf1 : FWF ({ s with ctags := s.ctags ++ [tags], cmon := s.cmon ++ [mi] } : FState) := hwf.extend tags mi hmi
  have hwf2 : FWF (({ s with ctags := s.ctags ++ [tags], cmon := s.cmon ++ [mi] } : FState).attachstack s.ctags.length) := hwf1.attachstack_wf s.ctags.length (by simp)
  have hwf3 : FWF (s.managePre tags mi) := hwf2.setMonAt_stack_eq mi _ rfl
  have hlen2 : (({ s with ctags := s.ctags ++ [tags], cmon := s.cmon ++ [mi] } : FState).attachstack s.ctags.length).mons.length = s.mons.length := by rw [FState.attachstack_length]
  have hlen3 : (s.managePre tags mi).mons.length = s.mons.length := by
    show ((({ s with ctags := s.ctags ++ [tags], cmon := s.cmon ++ [mi] } : FState).attachstack s.ctags.length).setMonAt mi { (({ s with ctags := s.ctags ++ [tags], cmon := s.cmon ++ [mi] } : FState).attachstack s.ctags.length).monAt mi with sel := some s.ctags.length }).mons.length = s.mons.length
    rw [FState.setMonAt_length, hlen2]
  have hmon1 : ({ s with ctags := s.ctags ++ [tags], cmon := s.cmon ++ [mi] } : FState).monOf s.ctags.length = mi := by
    show (s.cmon ++ [mi]).getD s.ctags.length 0 = mi
    rw [← hwf.2.1, List.getD_eq_getElem?_getD, List.getElem?_concat_length, Option.getD_some]
  have key := manage_focus_core (s.managePre tags mi) s mi s.ctags.length tags hwf3 hlen3 rfl
    (fun cid' hlt => by
      show (s.ctags ++ [tags]).getD cid' 0 = s.ctags.getD cid' 0
      exact List.getD_append_lt hlt 0)
    (by
      show (s.ctags ++ [tags]).getD s.ctags.length 0 = tags
      rw [List.getD_eq_getElem?_getD, List.getElem?_concat_length, Option.getD_some])
    (fun mj hne => by
      show ((({ s with ctags := s.ctags ++ [tags], cmon := s.cmon ++ [mi] } : FState).attachstack s.ctags.length).setMonAt mi { (({ s with ctags := s.ctags ++ [tags], cmon := s.cmon ++ [mi] } : FState).attachstack s.ctags.length).monAt mi with sel := some s.ctags.length }).monAt mj = s.monAt mj
      rw [FState.monAt_set_ne _ _ (Ne.symm hne)]
      rw [FState.attachstack_monAt_ne _ (by rw [hmon1]; exact Ne.symm hne)]
      exact rfl)
    (by
      show (((({ s with ctags := s.ctags ++ [tags], cmon := s.cmon ++ [mi] } : FState).attachstack s.ctags.length).setMonAt mi { (({ s with ctags := s.ctags ++ [tags], cmon := s.cmon ++ [mi] } : FState).attachstack s.ctags.length).monAt mi with sel := some s.ctags.length }).monAt mi).sel = some s.ctags.length
      rw [FState.monAt_set_self _ _ (by rw [hlen2]; exact hmi)])
    (by
      show (((({ s with ctags := s.ctags ++ [tags], cmon := s.cmon ++ [mi] } : FState).attachstack s.ctags.length).setMonAt mi { (({ s with ctags := s.ctags ++ [tags], cmon := s.cmon ++ [mi] } : FState).attachstack s.ctags.length).monAt mi with sel := some s.ctags.length }).monAt mi).cur = (s.monAt mi).cur
      rw [FState.monAt_set_self _ _ (by rw [hlen2]; exact hmi)]
      rw [FMon.cur_update_sel, FState.attachstack_cur]
      exact rfl)
    hinv
  exact key

/-- A reachable two-monitor configuration: the selected monitor (index
0) views tag 1 with an empty stack; monitor 1 owns client 0 (tags 1)
but currently views tag 2 (its `seltags` is 1 after a `view(2)`), so
client 0 is hidden and monitor 1's selection is null. -/
def twoMonState : FState :=
  ⟨[⟨1, 1, 0, [], none⟩, ⟨1, 2, 1, [0], none⟩], [1], [1], 0⟩

/-- Claim C2 (counterexample): in the well-formed state above —
satisfying every §3 invariant — managing a window that is transient for
the hidden client 0 puts the new client on monitor 1 with tags `1`,
executes `c->mon->sel = c` there, and the final `focus(NULL)` repairs
only the *selected* monitor 0: afterwards monitor 1's selected client
is the new client, whose tags do not intersect monitor 1's active
tag-set — the invariant is violated in the post-handler state. -/
theorem C2_sel_visibility_counterexample :
    FWF twoMonState ∧ SelInv twoMonState ∧
    ¬ SelInv (twoMonState.manageTransient 0) := by
  refine ⟨by unfold FWF; decide, ?_, ?_⟩
  · intro mi hmi cid hsel
    have h2 : mi < 2 := by simpa [twoMonState] using hmi
    interval_cases mi
    · exact Option.noConfusion hsel
    · exact Option.noConfusion hsel
  · intro h
    exact (h 1 (by decide) 1 (by decide)) (by decide)

/-- Claim C2 (witness): the amended theorem applied at a concrete
one-monitor state: `focus(NULL)` preserves the invariant there. -/
theorem C2_sel_visibility_witness :
    SelInv ((⟨[⟨1, 1, 0, [], none⟩], [], [], 0⟩ : FState).focus none) :=
  (C2_sel_visibility ⟨[⟨1, 1, 0, [], none⟩], [], [], 0⟩ (by unfold FWF; decide)
    (by
      intro mi hmi cid hsel
      have h1 : mi < 1 := hmi
      interval_cases mi
      exact Option.noConfusion hsel)).2.1 none

/-! ### Claim C4 — the tile layout

`tile(m)` with C unsigned-int arithmetic made explicit: `h`, `mw`,
`my`, `ty`, `i`, `n`, `actual_nmaster` are `unsigned int` in the
source, so mixed expressions like `(m->wh - my)` and
`mw - (2*c->bw) - (2*gappx)` are computed modulo `2^32` and then
converted back to `int` at the `resize` call. -/

/-- The unsigned-int value of an expression (reduction modulo `2^32`,
result in `[0, 2^32)`). -/
def u32 (x : Int) : Int := x % 4294967296

/-- Reinterpretation of an unsigned-int value as a (two's complement)
`int`. -/
def toInt32 (x : Int) : Int :=
  if u32 x < 2147483648 then u32 x else u32 x - 4294967296

/-- The monitor fields `tile` reads beside the work area: `mfact`
(a C float, modeled as the exact rational `mfactNum / mfactDen`),
`nmaster` (kept ≥ 0 by `incnmaster`) and `nmaster_dynamic_max`. -/
structure TMon where
  mfactNum : Int
  mfactDen : Int
  nmaster : Nat
  ndmax : Nat
deriving DecidableEq, Repr

/-- `nexttiled` iterated over a client list: skip
`c->isfloating || !ISVISIBLE(c)`. -/
def nexttiledList (tagset : Nat) (cs : List SClient) : List SClient :=
  cs.filter (fun c => !c.isfloating && (c.tags &&& tagset != 0))

/-- `actual_nmaster`:
`m->nmaster != 0 ? m->nmaster : MIN(MAX(n / 2, 1), m->nmaster_dynamic_max)`. -/
def tileAnm (m : TMon) (n : Nat) : Nat :=
  if m.nmaster ≠ 0 then m.nmaster else min (max (n / 2) 1) m.ndmax

/-- `mw`: `n > actual_nmaster ? (actual_nmaster ? m->ww * m->mfact : 0)
: m->ww`.  The float product truncated by the unsigned conversion is
`⌊ww * mfactNum / mfactDen⌋`, i.e. `(ww * mfactNum) / mfactDen` in
integer division for the nonnegative values that occur. -/
def tileMw (ctx : Ctx) (m : TMon) (n anm : Nat) : Int :=
  if n > anm then (if anm ≠ 0 then ctx.ww * m.mfactNum / m.mfactDen else 0)
  else ctx.ww

/-- The placement loop of `tile`: `i` is the loop index, `my`/`ty` the
running master/stack offsets (unsigned).  Each step computes the slot
height `h`, calls `resize` with the slot minus border and gap, and
advances the offset by `HEIGHT(c) + 2*gappx` of the *resized* client.
Returns the resized tiled clients in order. -/
def tileLoop (ctx : Ctx) (gappx : Int) (n anm : Nat) (mw : Int) :
    List SClient → Nat → Int → Int → List SClient
  | [], _, _, _ => []
  | c :: rest, i, my, ty =>
      if i < anm then
        let h := u32 (ctx.wh - my) / ((min n anm - i : Nat) : Int)
        let c' := resize ctx c
          ⟨ctx.wx + gappx, toInt32 (ctx.wy + my + gappx),
           toInt32 (mw - 2 * c.bw - 2 * gappx),
           toInt32 (h - 2 * c.bw - 2 * gappx)⟩ false
        c' :: tileLoop ctx gappx n anm mw rest (i + 1)
          (u32 (my + HEIGHT c' + 2 * gappx)) ty
      else
        let h := u32 (ctx.wh - ty) / ((n - i : Nat) : Int)
        let c' := resize ctx c
          ⟨toInt32 (ctx.wx + mw + gappx), toInt32 (ctx.wy + ty + gappx),
           toInt32 (ctx.ww - mw - 2 * c.bw - 2 * gappx),
           toInt32 (h - 2 * c.bw - 2 * gappx)⟩ false
        c' :: tileLoop ctx gappx n anm mw rest (i + 1) my
          (u32 (ty + HEIGHT c' + 2 * gappx))

/-- `tile(m)`: count the tiled clients, compute `actual_nmaster` and
the master width, then place every tiled client.  The output is the
list of resized tiled clients (floating/invisible clients are not
touched by `tile`). -/
def tile (ctx : Ctx) (m : TMon) (gappx : Int) (tagset : Nat)
    (cs : List SClient) : List SClient :=
  let tiled := nexttiledList tagset cs
  let n := tiled.length
  if n = 0 then []
  else tileLoop ctx gappx n (tileAnm m n) (tileMw ctx m n (tileAnm m n)) tiled 0 0 0

/-- The rectangle claimed by a placed client, border and the uniform
gap included. -/
def gapRect (g : Int) (c : SClient) : Geom :=
  ⟨c.x - g, c.y - g, c.w + 2 * c.bw + 2 * g, c.h + 2 * c.bw + 2 * g⟩

/-- Two (half-open) rectangles do not overlap. -/
def RectDisjoint (a b : Geom) : Prop :=
  a.x + a.w ≤ b.x ∨ b.x + b.w ≤ a.x ∨ a.y + a.h ≤ b.y ∨ b.y + b.h ≤ a.y

instance (a b : Geom) : Decidable (RectDisjoint a b) := by
  unfold RectDisjoint
  exact inferInstance

/-- A rectangle lies within the monitor's work area. -/
def InArea (ctx : Ctx) (r : Geom) : Prop :=
  ctx.wx ≤ r.x ∧ r.x + r.w ≤ ctx.wx + ctx.ww ∧
  ctx.wy ≤ r.y ∧ r.y + r.h ≤ ctx.wy + ctx.wh

instance (ctx : Ctx) (r : Geom) : Decidable (InArea ctx r) := by
  unfold InArea
  exact inferInstance

/-- Claim C4 (counterexample): two tiled clients honoring size hints on
a 100×100 work area, `mfact = 0.55`, no gap, no border; the master
client has `minw = 70`.  `tile` requests width 55 for the master, but
`apply_size_hints` clamps it up to the 70-pixel minimum, so the master
rectangle `(0,0,70,100)` overlaps the stack rectangle `(55,0,45,100)` —
the no-overlap guarantee does *not* survive size-hint adjustment. -/
theorem C4_tile_counterexample :
    tile (Ctx.mk 0 0 100 100 1000 1000 1 true) (TMon.mk 11 20 0 4) 0 1
        [SClient.mk 0 0 0 0 0 0 0 0 0 0 0 70 0 0 0 true false 1,
         SClient.mk 0 0 0 0 0 0 0 0 0 0 0 0 0 0 0 true false 1]
      = [SClient.mk 0 0 70 100 0 0 0 0 0 0 0 70 0 0 0 true false 1,
         SClient.mk 55 0 45 100 0 0 0 0 0 0 0 0 0 0 0 true false 1] ∧
    ¬ List.Pairwise (fun a b => RectDisjoint (gapRect 0 a) (gapRect 0 b))
        (tile (Ctx.mk 0 0 100 100 1000 1000 1 true) (TMon.mk 11 20 0 4) 0 1
          [SClient.mk 0 0 0 0 0 0 0 0 0 0 0 70 0 0 0 true false 1,
           SClient.mk 0 0 0 0 0 0 0 0 0 0 0 0 0 0 0 true false 1]) := by
  constructor <;> decide

/-- The size-hint fields that leave a rectangle untouched: no base, no
increment, no max, no min, no aspect constraint. -/
def TrivialHints (c : SClient) : Prop :=
  c.basew = 0 ∧ c.baseh = 0 ∧ c.incw = 0 ∧ c.inch = 0 ∧ c.maxw = 0 ∧
  c.maxh = 0 ∧ c.minw = 0 ∧ c.minh = 0 ∧ ¬(0 < c.mina ∧ 0 < c.maxa)

theorem u32_eq {x : Int} (h0 : 0 ≤ x) (h1 : x < 4294967296) : u32 x = x := by
  unfold u32
  omega

theorem toInt32_eq {x : Int} (h0 : 0 ≤ x) (h1 : x < 2147483648) :
    toInt32 x = x := by
  unfold toInt32
  rw [u32_eq h0 (by omega), if_pos h1]

/-- The facts about `h = (wh - my) / (slots)` the tile proof needs:
every slot gets at least `d`, fits in the remaining space, and leaves
at least `d` per remaining slot. -/
theorem tile_div_bound {a b d : Int} (hb : 1 ≤ b) (hd : 0 ≤ d)
    (h : b * d ≤ a) : d ≤ a / b ∧ a / b ≤ a ∧ (b - 1) * d ≤ a - a / b := by
  have hb0 : (0 : Int) < b := hb
  have h1 : d ≤ a / b := (Int.le_ediv_iff_mul_le hb0).mpr (by nlinarith)
  have ha : 0 ≤ a := le_trans (mul_nonneg (by omega) hd) h
  have h2 : a / b ≤ a := Int.ediv_le_self b ha
  have h3 : b * (a / b) + a % b = a := Int.ediv_add_emod a b
  have h4 : 0 ≤ a % b := Int.emod_nonneg a (by omega)
  have h5 : (b - 1) * d ≤ (b - 1) * (a / b) :=
    mul_le_mul_of_nonneg_left h1 (by omega)
  have h6 : (b - 1) * (a / b) = b * (a / b) - a / b := by ring
  refine ⟨h1, h2, ?_⟩
  omega

theorem resize_x (ctx : Ctx) (c : SClient) (g : Geom) (ia : Bool) :
    (resize ctx c g ia).x = (applysizehints ctx c g ia).1.x := by
  unfold resize
  split
  · rfl
  · rename_i hch
    have hrel : (applysizehints ctx c g ia).2 =
        ((applysizehints ctx c g ia).1.x != c.x ||
         (applysizehints ctx c g ia).1.y != c.y ||
         (applysizehints ctx c g ia).1.w != c.w ||
         (applysizehints ctx c g ia).1.h != c.h) := rfl
    rw [hrel] at hch
    simp only [Bool.or_eq_true, bne_iff_ne, not_or] at hch
    push_neg at hch
    exact hch.1.1.1.symm

theorem resize_y (ctx : Ctx) (c : SClient) (g : Geom) (ia : Bool) :
    (resize ctx c g ia).y = (applysizehints ctx c g ia).1.y := by
  unfold resize
  split
  · rfl
  · rename_i hch
    have hrel : (applysizehints ctx c g ia).2 =
        ((applysizehints ctx c g ia).1.x != c.x ||
         (applysizehints ctx c g ia).1.y != c.y ||
         (applysizehints ctx c g ia).1.w != c.w ||
         (applysizehints ctx c g ia).1.h != c.h) := rfl
    rw [hrel] at hch
    simp only [Bool.or_eq_true, bne_iff_ne, not_or] at hch
    push_neg at hch
    exact hch.1.1.2.symm

theorem resize_w (ctx : Ctx) (c : SClient) (g : Geom) (ia : Bool) :
    (resize ctx c g ia).w = (applysizehints ctx c g ia).1.w := by
  unfold resize
  split
  · rfl
  · rename_i hch
    have hrel : (applysizehints ctx c g ia).2 =
        ((applysizehints ctx c g ia).1.x != c.x ||
         (applysizehints ctx c g ia).1.y != c.y ||
         (applysizehints ctx c g ia).1.w != c.w ||
         (applysizehints ctx c g ia).1.h != c.h) := rfl
    rw [hrel] at hch
    simp only [Bool.or_eq_true, bne_iff_ne, not_or] at hch
    push_neg at hch
    exact hch.1.2.symm

theorem resize_h (ctx : Ctx) (c : SClient) (g : Geom) (ia : Bool) :
    (resize ctx c g ia).h = (applysizehints ctx c g ia).1.h := by
  unfold resize
  split
  · rfl
  · rename_i hch
    have hrel : (applysizehints ctx c g ia).2 =
        ((applysizehints ctx c g ia).1.x != c.x ||
         (applysizehints ctx c g ia).1.y != c.y ||
         (applysizehints ctx c g ia).1.w != c.w ||
         (applysizehints ctx c g ia).1.h != c.h) := rfl
    rw [hrel] at hch
    simp only [Bool.or_eq_true, bne_iff_ne, not_or] at hch
    push_neg at hch
    exact hch.2.symm

theorem resize_bw (ctx : Ctx) (c : SClient) (g : Geom) (ia : Bool) :
    (resize ctx c g ia).bw = c.bw := by
  unfold resize
  split <;> rfl

theorem ashHints_id (c : SClient) (w h : Int) (hth : TrivialHints c)
    (hw : 0 ≤ w) (hh : 0 ≤ h) : ashHints c w h = (w, h) := by
  obtain ⟨h1, h2, h3, h4, h5, h6, h7, h8, h9⟩ := hth
  unfold ashHints
  rw [h1, h2, h3, h4, h5, h6, h7, h8]
  simp only [beq_self_eq_true, Bool.and_self, Bool.not_true, Bool.false_eq_true,
    if_false, if_true, sub_zero, add_zero, ne_eq, not_true_eq_false, if_neg h9]
  rw [max_eq_left hw, max_eq_left hh]

theorem applysizehints_trivial (ctx : Ctx) (c : SClient) (g : Geom)
    (hth : TrivialHints c)
    (hw1 : 1 ≤ g.w) (hwbh : ctx.bh ≤ g.w)
    (hh1 : 1 ≤ g.h) (hhbh : ctx.bh ≤ g.h)
    (hxlt : g.x < ctx.wx + ctx.ww) (hxgt : ctx.wx < g.x + g.w + 2 * c.bw)
    (hylt : g.y < ctx.wy + ctx.wh) (hygt : ctx.wy < g.y + g.h + 2 * c.bw) :
    (applysizehints ctx c g false).1 = g := by
  obtain ⟨gx, gy, gw, gh⟩ := g
  simp only at hw1 hwbh hh1 hhbh hxlt hxgt hylt hygt
  have hmw : max 1 gw = gw := by omega
  have hmh : max 1 gh = gh := by omega
  have hX : ashX ctx c false gx gw = gx := by
    unfold ashX
    simp only [Bool.false_eq_true, if_false]
    rw [if_neg (by omega), if_neg (by omega)]
  have hY : ashY ctx c false gy gh = gy := by
    unfold ashY
    simp only [Bool.false_eq_true, if_false]
    rw [if_neg (by omega), if_neg (by omega)]
  show ((applysizehints ctx c ⟨gx, gy, gw, gh⟩ false).1 : Geom) = ⟨gx, gy, gw, gh⟩
  unfold applysizehints
  simp only [hmw, hmh, hX, hY]
  have hbw : (if gw < ctx.bh then ctx.bh else gw) = gw := by omega
  have hbh2 : (if gh < ctx.bh then ctx.bh else gh) = gh := by omega
  rw [hbw, hbh2]
  split
  · rw [ashHints_id c gw gh hth (by omega) (by omega)]
  · rfl

/-- A gap-inclusive rectangle lies within the column `[lo, hi]` and the
vertical band `[ylo, yhi]`. -/
def InBand (lo hi ylo yhi : Int) (r : Geom) : Prop :=
  lo ≤ r.x ∧ r.x + r.w ≤ hi ∧ ylo ≤ r.y ∧ r.y + r.h ≤ yhi

theorem tileLoop_spec (ctx : Ctx) (gappx B mw : Int) (n anm : Nat)
    (hg : 0 ≤ gappx) (hB : 0 ≤ B) (hbh : 1 ≤ ctx.bh)
    (hwx0 : 0 ≤ ctx.wx) (hwy0 : 0 ≤ ctx.wy)
    (hwxB : ctx.wx ≤ 2 ^ 28) (hwyB : ctx.wy ≤ 2 ^ 28)
    (hwwB : ctx.ww ≤ 2 ^ 28) (hwhB : ctx.wh ≤ 2 ^ 28)
    (hgB : gappx ≤ 2 ^ 28) (hBB : B ≤ 2 ^ 28) (hbhB : ctx.bh ≤ 2 ^ 28)
    (hmw0 : 0 ≤ mw) (hmwW : mw ≤ ctx.ww)
    (hml : 0 < anm → ctx.bh + 2 * B + 2 * gappx ≤ mw)
    (hst : anm < n → mw + (ctx.bh + 2 * B + 2 * gappx) ≤ ctx.ww) :
    ∀ (rest : List SClient) (i : Nat) (my ty : Int),
      (∀ c ∈ rest, TrivialHints c ∧ c.bw = B) →
      i + rest.length = n →
      0 ≤ my →
      my + ((min n anm - i : Nat) : Int) * (ctx.bh + 2 * B + 2 * gappx)
        ≤ ctx.wh →
      0 ≤ ty →
      ty + ((n - max i anm : Nat) : Int) * (ctx.bh + 2 * B + 2 * gappx)
        ≤ ctx.wh →
      (∀ c' ∈ tileLoop ctx gappx n anm mw rest i my ty,
        InBand ctx.wx (ctx.wx + mw) (ctx.wy + my) (ctx.wy + ctx.wh)
          (gapRect gappx c') ∨
        InBand (ctx.wx + mw) (ctx.wx + ctx.ww) (ctx.wy + ty) (ctx.wy + ctx.wh)
          (gapRect gappx c')) ∧
      List.Pairwise
        (fun a b => RectDisjoint (gapRect gappx a) (gapRect gappx b))
        (tileLoop ctx gappx n anm mw rest i my ty) := by
  intro rest
  induction rest with
  | nil =>
    intro i my ty _ _ _ _ _ _
    exact ⟨by intro c' hc'; simp [tileLoop] at hc', by simp [tileLoop]⟩
  | cons c rest ih =>
    intro i my ty hth hcount hmy0 hmybud hty0 htybud
    have hD1 : 1 ≤ ctx.bh + 2 * B + 2 * gappx := by omega
    have hin : i < n := by simp at hcount; omega
    obtain ⟨hthc, hbwc⟩ := hth c (by simp)
    have hthr : ∀ c0 ∈ rest, TrivialHints c0 ∧ c0.bw = B :=
      fun c0 hc0 => hth c0 (by simp [hc0])
    by_cases hmaster : i < anm
    case pos =>
      -- master column step
      have hkiI : ((min n anm - i : Nat) : Int) = (min n anm : Nat) - (i : Int) := by
        push_cast [Nat.cast_sub (by omega : i ≤ min n anm)]
        ring
      have hbpos : 1 ≤ ((min n anm - i : Nat) : Int) := by
        rw [hkiI]; push_cast; omega
      have hanm : 0 < anm := by omega
      have hmwD := hml hanm
      have hbd : 0 < ((min n anm - i : Nat) : Int) * (ctx.bh + 2 * B + 2 * gappx) :=
        mul_pos (by omega) (by omega)
      have ha0 : 0 ≤ ctx.wh - my := by omega
      have haB : ctx.wh - my < 4294967296 := by omega
      have hbud' : ((min n anm - i : Nat) : Int) * (ctx.bh + 2 * B + 2 * gappx)
          ≤ ctx.wh - my := by omega
      obtain ⟨hd1, hd2, hd3⟩ := tile_div_bound hbpos (by omega) hbud'
      -- the computed slot height
      have hu : u32 (ctx.wh - my) = ctx.wh - my := u32_eq ha0 haB
      have hbd2 : (ctx.bh + 2 * B + 2 * gappx)
          ≤ ((min n anm - i : Nat) : Int) * (ctx.bh + 2 * B + 2 * gappx) :=
        le_mul_of_one_le_left (by omega) hbpos
      have hmywh : my + (ctx.bh + 2 * B + 2 * gappx) ≤ ctx.wh := by omega
      have hhD : ctx.bh + 2 * B + 2 * gappx
          ≤ (ctx.wh - my) / ((min n anm - i : Nat) : Int) := hd1
      have hhle : (ctx.wh - my) / ((min n anm - i : Nat) : Int) ≤ ctx.wh - my := hd2
      have hh0 : 0 ≤ (ctx.wh - my) / ((min n anm - i : Nat) : Int) := by omega
      -- the requested rectangle, with the unsigned round-trips removed
      have htx : toInt32 (ctx.wy + my + gappx) = ctx.wy + my + gappx :=
        toInt32_eq (by omega) (by omega)
      have htw : toInt32 (mw - 2 * c.bw - 2 * gappx)
          = mw - 2 * c.bw - 2 * gappx := by
        rw [hbwc]; exact toInt32_eq (by omega) (by omega)
      have hth2 : toInt32 ((ctx.wh - my) / ((min n anm - i : Nat) : Int)
            - 2 * c.bw - 2 * gappx)
          = (ctx.wh - my) / ((min n anm - i : Nat) : Int) - 2 * c.bw - 2 * gappx := by
        rw [hbwc]; exact toInt32_eq (by omega) (by omega)
      have hgeom := applysizehints_trivial ctx c
        ⟨ctx.wx + gappx, ctx.wy + my + gappx, mw - 2 * c.bw - 2 * gappx,
         (ctx.wh - my) / ((min n anm - i : Nat) : Int) - 2 * c.bw - 2 * gappx⟩
        hthc (by simp; omega) (by simp; omega) (by simp; omega) (by simp; omega)
        (by simp; omega) (by simp; rw [hbwc]; omega)
        (by simp; omega) (by simp; rw [hbwc]; omega)
      -- unfold one loop step
      rw [show tileLoop ctx gappx n anm mw (c :: rest) i my ty =
        (resize ctx c
          ⟨ctx.wx + gappx, toInt32 (ctx.wy + my + gappx),
           toInt32 (mw - 2 * c.bw - 2 * gappx),
           toInt32 (u32 (ctx.wh - my) / ((min n anm - i : Nat) : Int)
             - 2 * c.bw - 2 * gappx)⟩ false) ::
        tileLoop ctx gappx n anm mw rest (i + 1)
          (u32 (my + HEIGHT (resize ctx c
            ⟨ctx.wx + gappx, toInt32 (ctx.wy + my + gappx),
             toInt32 (mw - 2 * c.bw - 2 * gappx),
             toInt32 (u32 (ctx.wh - my) / ((min n anm - i : Nat) : Int)
               - 2 * c.bw - 2 * gappx)⟩ false) + 2 * gappx)) ty
        from by rw [tileLoop, if_pos hmaster]]
      rw [hu, htx, htw, hth2]
      -- the resized client's fields
      have hcx := resize_x ctx c ⟨ctx.wx + gappx, ctx.wy + my + gappx,
        mw - 2 * c.bw - 2 * gappx,
        (ctx.wh - my) / ((min n anm - i : Nat) : Int) - 2 * c.bw - 2 * gappx⟩ false
      have hcy := resize_y ctx c ⟨ctx.wx + gappx, ctx.wy + my + gappx,
        mw - 2 * c.bw - 2 * gappx,
        (ctx.wh - my) / ((min n anm - i : Nat) : Int) - 2 * c.bw - 2 * gappx⟩ false
      have hcw := resize_w ctx c ⟨ctx.wx + gappx, ctx.wy + my + gappx,
        mw - 2 * c.bw - 2 * gappx,
        (ctx.wh - my) / ((min n anm - i : Nat) : Int) - 2 * c.bw - 2 * gappx⟩ false
      have hch := resize_h ctx c ⟨ctx.wx + gappx, ctx.wy + my + gappx,
        mw - 2 * c.bw - 2 * gappx,
        (ctx.wh - my) / ((min n anm - i : Nat) : Int) - 2 * c.bw - 2 * gappx⟩ false
      have hcbw := resize_bw ctx c ⟨ctx.wx + gappx, ctx.wy + my + gappx,
        mw - 2 * c.bw - 2 * gappx,
        (ctx.wh - my) / ((min n anm - i : Nat) : Int) - 2 * c.bw - 2 * gappx⟩ false
      rw [hgeom] at hcx hcy hcw hch
      simp only [] at hcx hcy hcw hch
      -- the head's gap-inclusive rectangle is exactly the slot
      have hrect : gapRect gappx (resize ctx c ⟨ctx.wx + gappx, ctx.wy + my + gappx,
          mw - 2 * c.bw - 2 * gappx,
          (ctx.wh - my) / ((min n anm - i : Nat) : Int) - 2 * c.bw - 2 * gappx⟩ false)
          = ⟨ctx.wx, ctx.wy + my, mw,
             (ctx.wh - my) / ((min n anm - i : Nat) : Int)⟩ := by
        unfold gapRect
        rw [hcx, hcy, hcw, hch, hcbw, hbwc]
        simp only [Geom.mk.injEq]
        refine ⟨by ring, by ring, by ring, by ring⟩
      -- the next master offset
      have hheight : HEIGHT (resize ctx c ⟨ctx.wx + gappx, ctx.wy + my + gappx,
          mw - 2 * c.bw - 2 * gappx,
          (ctx.wh - my) / ((min n anm - i : Nat) : Int) - 2 * c.bw - 2 * gappx⟩ false)
          = (ctx.wh - my) / ((min n anm - i : Nat) : Int) - 2 * gappx := by
        unfold HEIGHT
        rw [hch, hcbw, hbwc]
        ring
      have hmynext : u32 (my + ((ctx.wh - my) / ((min n anm - i : Nat) : Int)
            - 2 * gappx) + 2 * gappx)
          = my + (ctx.wh - my) / ((min n anm - i : Nat) : Int) := by
        rw [show my + ((ctx.wh - my) / ((min n anm - i : Nat) : Int) - 2 * gappx)
            + 2 * gappx = my + (ctx.wh - my) / ((min n anm - i : Nat) : Int)
          from by ring]
        exact u32_eq (by omega) (by omega)
      rw [hheight, hmynext]
      -- the induction hypothesis at (i+1, my + h, ty)
      have hstep : ((min n anm - (i + 1) : Nat) : Int)
          = ((min n anm - i : Nat) : Int) - 1 := by
        have h1 : i + 1 ≤ min n anm := by omega
        push_cast [Nat.cast_sub h1, Nat.cast_sub (by omega : i ≤ min n anm)]
        ring
      have hmax : (n - max (i + 1) anm : Nat) = (n - max i anm : Nat) := by
        omega
      obtain ⟨ihA, ihP⟩ := ih (i + 1)
        (my + (ctx.wh - my) / ((min n anm - i : Nat) : Int)) ty hthr
        (by simp at hcount ⊢; omega) (by omega)
        (by rw [hstep]; omega) hty0 (by rw [hmax]; exact htybud)
      constructor
      · intro c' hc'
        rcases List.mem_cons.mp hc' with hc' | hc'
        · subst hc'
          left
          rw [hrect]
          exact ⟨le_refl _, by simp <;> omega, by simp <;> omega, by simp <;> omega⟩
        · rcases ihA c' hc' with hband | hband
          · left
            obtain ⟨b1, b2, b3, b4⟩ := hband
            exact ⟨b1, b2, by omega, b4⟩
          · right
            exact hband
      · refine List.Pairwise.cons ?_ ihP
        intro b' hb'
        rw [hrect]
        rcases ihA b' hb' with hband | hband
        · obtain ⟨b1, b2, b3, b4⟩ := hband
          right; right; left
          simp only []
          omega
        · obtain ⟨b1, b2, b3, b4⟩ := hband
          left
          simp only []
          omega
    case neg =>
      -- stack column step
      have hanmle : anm ≤ i := by omega
      have hanmn : anm < n := by omega
      have hmwW2 := hst hanmn
      have hmaxI : (n - max i anm : Nat) = n - i := by omega
      have hkiI : ((n - i : Nat) : Int) = (n : Int) - i := by
        push_cast [Nat.cast_sub (by omega : i ≤ n)]
        ring
      have hbpos : 1 ≤ ((n - i : Nat) : Int) := by rw [hkiI]; push_cast; omega
      have hbd : 0 < ((n - i : Nat) : Int) * (ctx.bh + 2 * B + 2 * gappx) :=
        mul_pos (by omega) (by omega)
      have ha0 : 0 ≤ ctx.wh - ty := by
        rw [hmaxI] at htybud
        omega
      have haB : ctx.wh - ty < 4294967296 := by omega
      have hbud' : ((n - i : Nat) : Int) * (ctx.bh + 2 * B + 2 * gappx)
          ≤ ctx.wh - ty := by rw [hmaxI] at htybud; omega
      obtain ⟨hd1, hd2, hd3⟩ := tile_div_bound hbpos (by omega) hbud'
      have hu : u32 (ctx.wh - ty) = ctx.wh - ty := u32_eq ha0 haB
      have hhD : ctx.bh + 2 * B + 2 * gappx
          ≤ (ctx.wh - ty) / ((n - i : Nat) : Int) := hd1
      have hhle : (ctx.wh - ty) / ((n - i : Nat) : Int) ≤ ctx.wh - ty := hd2
      have htx : toInt32 (ctx.wx + mw + gappx) = ctx.wx + mw + gappx :=
        toInt32_eq (by omega) (by omega)
      have hty' : toInt32 (ctx.wy + ty + gappx) = ctx.wy + ty + gappx :=
        toInt32_eq (by omega) (by omega)
      have htw : toInt32 (ctx.ww - mw - 2 * c.bw - 2 * gappx)
          = ctx.ww - mw - 2 * c.bw - 2 * gappx := by
        rw [hbwc]; exact toInt32_eq (by omega) (by omega)
      have hth2 : toInt32 ((ctx.wh - ty) / ((n - i : Nat) : Int)
            - 2 * c.bw - 2 * gappx)
          = (ctx.wh - ty) / ((n - i : Nat) : Int) - 2 * c.bw - 2 * gappx := by
        rw [hbwc]; exact toInt32_eq (by omega) (by omega)
      have hgeom := applysizehints_trivial ctx c
        ⟨ctx.wx + mw + gappx, ctx.wy + ty + gappx, ctx.ww - mw - 2 * c.bw - 2 * gappx,
         (ctx.wh - ty) / ((n - i : Nat) : Int) - 2 * c.bw - 2 * gappx⟩
        hthc (by simp; omega) (by simp; omega) (by simp; omega) (by simp; omega)
        (by simp; omega) (by simp; rw [hbwc]; omega)
        (by simp; omega) (by simp; rw [hbwc]; omega)
      rw [show tileLoop ctx gappx n anm mw (c :: rest) i my ty =
        (resize ctx c
          ⟨toInt32 (ctx.wx + mw + gappx), toInt32 (ctx.wy + ty + gappx),
           toInt32 (ctx.ww - mw - 2 * c.bw - 2 * gappx),
           toInt32 (u32 (ctx.wh - ty) / ((n - i : Nat) : Int)
             - 2 * c.bw - 2 * gappx)⟩ false) ::
        tileLoop ctx gappx n anm mw rest (i + 1) my
          (u32 (ty + HEIGHT (resize ctx c
            ⟨toInt32 (ctx.wx + mw + gappx), toInt32 (ctx.wy + ty + gappx),
             toInt32 (ctx.ww - mw - 2 * c.bw - 2 * gappx),
             toInt32 (u32 (ctx.wh - ty) / ((n - i : Nat) : Int)
               - 2 * c.bw - 2 * gappx)⟩ false) + 2 * gappx))
        from by rw [tileLoop, if_neg hmaster]]
      rw [hu, htx, hty', htw, hth2]
      have hcx := resize_x ctx c ⟨ctx.wx + mw + gappx, ctx.wy + ty + gappx,
        ctx.ww - mw - 2 * c.bw - 2 * gappx,
        (ctx.wh - ty) / ((n - i : Nat) : Int) - 2 * c.bw - 2 * gappx⟩ false
      have hcy := resize_y ctx c ⟨ctx.wx + mw + gappx, ctx.wy + ty + gappx,
        ctx.ww - mw - 2 * c.bw - 2 * gappx,
        (ctx.wh - ty) / ((n - i : Nat) : Int) - 2 * c.bw - 2 * gappx⟩ false
      have hcw := resize_w ctx c ⟨ctx.wx + mw + gappx, ctx.wy + ty + gappx,
        ctx.ww - mw - 2 * c.bw - 2 * gappx,
        (ctx.wh - ty) / ((n - i : Nat) : Int) - 2 * c.bw - 2 * gappx⟩ false
      have hch := resize_h ctx c ⟨ctx.wx + mw + gappx, ctx.wy + ty + gappx,
        ctx.ww - mw - 2 * c.bw - 2 * gappx,
        (ctx.wh - ty) / ((n - i : Nat) : Int) - 2 * c.bw - 2 * gappx⟩ false
      have hcbw := resize_bw ctx c ⟨ctx.wx + mw + gappx, ctx.wy + ty + gappx,
        ctx.ww - mw - 2 * c.bw - 2 * gappx,
        (ctx.wh - ty) / ((n - i : Nat) : Int) - 2 * c.bw - 2 * gappx⟩ false
      rw [hgeom] at hcx hcy hcw hch
      simp only [] at hcx hcy hcw hch
      have hrect : gapRect gappx (resize ctx c ⟨ctx.wx + mw + gappx,
          ctx.wy + ty + gappx, ctx.ww - mw - 2 * c.bw - 2 * gappx,
          (ctx.wh - ty) / ((n - i : Nat) : Int) - 2 * c.bw - 2 * gappx⟩ false)
          = ⟨ctx.wx + mw, ctx.wy + ty, ctx.ww - mw,
             (ctx.wh - ty) / ((n - i : Nat) : Int)⟩ := by
        unfold gapRect
        rw [hcx, hcy, hcw, hch, hcbw, hbwc]
        simp only [Geom.mk.injEq]
        refine ⟨by ring, by ring, by ring, by ring⟩
      have hheight : HEIGHT (resize ctx c ⟨ctx.wx + mw + gappx,
          ctx.wy + ty + gappx, ctx.ww - mw - 2 * c.bw - 2 * gappx,
          (ctx.wh - ty) / ((n - i : Nat) : Int) - 2 * c.bw - 2 * gappx⟩ false)
          = (ctx.wh - ty) / ((n - i : Nat) : Int) - 2 * gappx := by
        unfold HEIGHT
        rw [hch, hcbw, hbwc]
        ring
      have htynext : u32 (ty + ((ctx.wh - ty) / ((n - i : Nat) : Int)
            - 2 * gappx) + 2 * gappx)
          = ty + (ctx.wh - ty) / ((n - i : Nat) : Int) := by
        rw [show ty + ((ctx.wh - ty) / ((n - i : Nat) : Int) - 2 * gappx)
            + 2 * gappx = ty + (ctx.wh - ty) / ((n - i : Nat) : Int)
          from by ring]
        exact u32_eq (by omega) (by omega)
      rw [hheight, htynext]
      have hstep : ((n - (i + 1) : Nat) : Int) = ((n - i : Nat) : Int) - 1 := by
        push_cast [Nat.cast_sub (by omega : i + 1 ≤ n),
          Nat.cast_sub (by omega : i ≤ n)]
        ring
      have hmaxS : (n - max (i + 1) anm : Nat) = n - (i + 1) := by omega
      have hmono : ((min n anm - (i + 1) : Nat) : Int)
          ≤ ((min n anm - i : Nat) : Int) := by
        push_cast
        omega
      obtain ⟨ihA, ihP⟩ := ih (i + 1) my
        (ty + (ctx.wh - ty) / ((n - i : Nat) : Int)) hthr
        (by simp at hcount ⊢; omega) hmy0
        (by
          have hmul : ((min n anm - (i + 1) : Nat) : Int)
                * (ctx.bh + 2 * B + 2 * gappx)
              ≤ ((min n anm - i : Nat) : Int) * (ctx.bh + 2 * B + 2 * gappx) :=
            mul_le_mul_of_nonneg_right hmono (by omega)
          omega) (by omega)
        (by rw [hmaxS, hstep]; omega)
      constructor
      · intro c' hc'
        rcases List.mem_cons.mp hc' with hc' | hc'
        · subst hc'
          right
          rw [hrect]
          exact ⟨le_refl _, by simp <;> omega, by simp <;> omega, by simp <;> omega⟩
        · rcases ihA c' hc' with hband | hband
          · left
            exact hband
          · right
            obtain ⟨b1, b2, b3, b4⟩ := hband
            exact ⟨b1, b2, by omega, b4⟩
      · refine List.Pairwise.cons ?_ ihP
        intro b' hb'
        rw [hrect]
        rcases ihA b' hb' with hband | hband
        · obtain ⟨b1, b2, b3, b4⟩ := hband
          right; left
          simp only []
          omega
        · obtain ⟨b1, b2, b3, b4⟩ := hband
          right; right; left
          simp only []
          omega

/-- Claim C4 (amended): the tile layout assigns every visible
non-floating client a rectangle — border and the uniform `gappx` gap
included — such that the rectangles are pairwise non-overlapping and
all lie inside the monitor's work area, provided `apply_size_hints`
leaves each requested rectangle unchanged (trivial size hints, uniform
border) and the work area is large enough for the slot arithmetic (each
column's height budget fits `wh`, and the master/stack columns are at
least one slot wide).  Without the size-hint proviso the guarantee
fails: see `C4_tile_counterexample`, where a minimum-size hint makes
the master and stack rectangles overlap. -/
theorem C4_tile_layout (ctx : Ctx) (m : TMon) (gappx B : Int)
    (tagset : Nat) (cs : List SClient) (n anm : Nat) (mw : Int)
    (hn : n = (nexttiledList tagset cs).length)
    (hanm : anm = tileAnm m n)
    (hmw : mw = tileMw ctx m n anm)
    (hth : ∀ c ∈ nexttiledList tagset cs, TrivialHints c ∧ c.bw = B)
    (hg : 0 ≤ gappx) (hB : 0 ≤ B) (hbh : 1 ≤ ctx.bh)
    (hwx0 : 0 ≤ ctx.wx) (hwy0 : 0 ≤ ctx.wy)
    (hwxB : ctx.wx ≤ 2 ^ 28) (hwyB : ctx.wy ≤ 2 ^ 28)
    (hwwB : ctx.ww ≤ 2 ^ 28) (hwhB : ctx.wh ≤ 2 ^ 28)
    (hgB : gappx ≤ 2 ^ 28) (hBB : B ≤ 2 ^ 28) (hbhB : ctx.bh ≤ 2 ^ 28)
    (hmw0 : 0 ≤ mw) (hmwW : mw ≤ ctx.ww)
    (hml : 0 < anm → ctx.bh + 2 * B + 2 * gappx ≤ mw)
    (hst : anm < n → mw + (ctx.bh + 2 * B + 2 * gappx) ≤ ctx.ww)
    (hbud1 : ((min n anm : Nat) : Int) * (ctx.bh + 2 * B + 2 * gappx)
      ≤ ctx.wh)
    (hbud2 : ((n - anm : Nat) : Int) * (ctx.bh + 2 * B + 2 * gappx)
      ≤ ctx.wh) :
    (∀ c' ∈ tile ctx m gappx tagset cs, InArea ctx (gapRect gappx c')) ∧
    List.Pairwise (fun a b => RectDisjoint (gapRect gappx a) (gapRect gappx b))
      (tile ctx m gappx tagset cs) := by
  subst hn
  subst hanm
  subst hmw
  unfold tile
  simp only []
  split
  case isTrue h0 =>
    exact ⟨fun c' hc' => absurd hc' (by simp), List.Pairwise.nil⟩
  case isFalse h0 =>
    obtain ⟨hA, hP⟩ := tileLoop_spec ctx gappx B
      (tileMw ctx m (nexttiledList tagset cs).length
        (tileAnm m (nexttiledList tagset cs).length))
      (nexttiledList tagset cs).length
      (tileAnm m (nexttiledList tagset cs).length)
      hg hB hbh hwx0 hwy0 hwxB hwyB hwwB hwhB hgB hBB hbhB hmw0 hmwW hml hst
      (nexttiledList tagset cs) 0 0 0 hth (by simp) le_rfl
      (by simpa using hbud1) le_rfl (by simpa using hbud2)
    refine ⟨?_, hP⟩
    intro c' hc'
    rcases hA c' hc' with hband | hband <;> obtain ⟨b1, b2, b3, b4⟩ := hband
    · exact ⟨b1, by omega, by omega, by omega⟩
    · exact ⟨by omega, by omega, by omega, by omega⟩

def ctxW : Ctx := ⟨0, 0, 100, 100, 1000, 1000, 10, true⟩

def tmonW : TMon := ⟨11, 20, 1, 4⟩

def cW : SClient :=
  ⟨0, 0, 50, 50, 1, 0, 0, 0, 0, 0, 0, 0, 0, 0, 0, true, false, 1⟩

theorem C4_tile_layout_witness :
    (∀ c ∈ nexttiledList 1 [cW, cW], TrivialHints c ∧ c.bw = 1) ∧
    (∀ c' ∈ tile ctxW tmonW 1 1 [cW, cW], InArea ctxW (gapRect 1 c')) ∧
    List.Pairwise (fun a b => RectDisjoint (gapRect 1 a) (gapRect 1 b))
      (tile ctxW tmonW 1 1 [cW, cW]) := by
  have hth : ∀ c ∈ nexttiledList 1 [cW, cW], TrivialHints c ∧ c.bw = 1 := by
    have he : nexttiledList 1 [cW, cW] = [cW, cW] := rfl
    rw [he]
    intro c hc
    simp at hc
    subst hc
    exact ⟨⟨rfl, rfl, rfl, rfl, rfl, rfl, rfl, rfl,
      fun h => lt_irrefl 0 h.1⟩, rfl⟩
  exact ⟨hth, C4_tile_layout ctxW tmonW 1 1 1 [cW, cW] 2 1 55
    rfl (by decide) (by decide) hth (by decide) (by decide) (by decide)
    (by decide) (by decide) (by decide) (by decide) (by decide) (by decide)
    (by decide) (by decide) (by decide) (by decide) (by decide)
    (fun _ => by decide) (fun _ => by decide) (by decide) (by decide)⟩
